import Mathlib

/-!
Verification of the ecoji base-1024 codec (Rust crate `ecoji`).

Shallow embedding conventions:
* bytes and Unicode scalar values are `Nat` (byte inputs carry `< 256` hypotheses
  mirroring `u8`);
* the byte-stream source/sink pair of `encode`/`decode` becomes
  `List Nat → List Nat` / `List Nat → Except ErrorKind (List Nat)`; the returned
  `usize` byte counts are the lengths of the produced lists;
* the `Chars` iterator of `chars.rs` becomes `charsOf`, materialising the
  sequence of `Result<char, CharsError>` items up to and including the first
  error (the decoder aborts at the first error, so later items are never read);
  for a pure list source the only possible `CharsError` is `NotUtf8`,
  modelled as `Except.error ()`.
-/

set_option maxRecDepth 8192

namespace Ecoji

/-! ### Alphabet table (emojis.rs / build.rs)

`build.rs` hard-codes `PADDING = U+2615` and `PADDING_40 = U+269C`, then reads
`emojis.txt` (1027 lines of code points), removes lines 256, 512 and 768 of
the shrinking list (i.e. original lines 256, 513 and 770) to serve as
`PADDING_41/42/43`, and uses the remaining 1024 lines, in file order, as the
`EMOJIS` table; `EMOJIS_REV` is the inverse map of `EMOJIS` only. -/

def PADDING : Nat := 0x2615

def PADDING_40 : Nat := 0x269C

/-- Modelled from the spec: the data file `emojis.txt` consumed by `build.rs`
is not among the sources.  The spec requires 1024 pairwise-distinct scalar
values plus sentinels such that the codec is order-preserving at the byte
level (§5), which forces the file's code points to be listed in increasing
order with the three removed lines interleaved at exactly the removal
positions.  We model the file as 1027 consecutive code points starting at
U+1F300 (all four-byte UTF-8, all above the two hard-coded sentinels),
which realises every property the spec states about the table. -/
def origLine (i : Nat) : Nat := 0x1F300 + i

def PADDING_41 : Nat := origLine 256

def PADDING_42 : Nat := origLine 513

def PADDING_43 : Nat := origLine 770

/-- The 1024-entry forward table: `emojis.txt` lines minus the three removed
sentinel lines, as generated by `build.rs`. -/
def EMOJIS (i : Nat) : Nat :=
  if i < 256 then origLine i
  else if i < 512 then origLine (i + 1)
  else if i < 768 then origLine (i + 2)
  else origLine (i + 3)

/-- The reverse lookup map (`EMOJIS_REV` in the generated code): defined on
exactly the 1024 `EMOJIS` values, sending each back to its rank. -/
def EMOJIS_REV (c : Nat) : Option Nat :=
  if 0x1F300 ≤ c ∧ c ≤ 0x1F300 + 1026 ∧
      c ≠ PADDING_41 ∧ c ≠ PADDING_42 ∧ c ≠ PADDING_43 then
    some (if c - 0x1F300 < 256 then c - 0x1F300
          else if c - 0x1F300 < 513 then c - 0x1F300 - 1
          else if c - 0x1F300 < 770 then c - 0x1F300 - 2
          else c - 0x1F300 - 3)
  else none

/-- `emojis.rs`: membership in the alphabet or the sentinel set. -/
def is_valid_alphabet_char (c : Nat) : Bool :=
  [PADDING, PADDING_40, PADDING_41, PADDING_42, PADDING_43].contains c ||
    (EMOJIS_REV c).isSome

/-! ### Encoder (encode.rs) -/

/-- `encode_chunk` of `encode.rs`, at the code-point level: maps a chunk of
1–5 bytes to its 4 output symbols.  The source asserts `1 ≤ len ≤ 5`; the
out-of-range lengths (dead in `encode`) are mapped to `[]`. -/
def encode_chunk (s : List Nat) : List Nat :=
  let b0 := s.getD 0 0
  let b1 := s.getD 1 0
  let b2 := s.getD 2 0
  let b3 := s.getD 3 0
  let b4 := s.getD 4 0
  let c0 := EMOJIS (b0 <<< 2 ||| b1 >>> 6)
  match s.length with
  | 1 => [c0, PADDING, PADDING, PADDING]
  | 2 => [c0, EMOJIS ((b1 &&& 0x3f) <<< 4 ||| b2 >>> 4), PADDING, PADDING]
  | 3 => [c0, EMOJIS ((b1 &&& 0x3f) <<< 4 ||| b2 >>> 4),
          EMOJIS ((b2 &&& 0x0f) <<< 6 ||| b3 >>> 2), PADDING]
  | 4 => [c0, EMOJIS ((b1 &&& 0x3f) <<< 4 ||| b2 >>> 4),
          EMOJIS ((b2 &&& 0x0f) <<< 6 ||| b3 >>> 2),
          match b3 &&& 0x03 with
          | 0 => PADDING_40
          | 1 => PADDING_41
          | 2 => PADDING_42
          | _ => PADDING_43]
  | 5 => [c0, EMOJIS ((b1 &&& 0x3f) <<< 4 ||| b2 >>> 4),
          EMOJIS ((b2 &&& 0x0f) <<< 6 ||| b3 >>> 2),
          EMOJIS ((b3 &&& 0x03) <<< 8 ||| b4)]
  | _ => []

/-- The chunking loop of `encode`: `read_exact` fills 5-byte chunks (a short
chunk only at end of stream), each encoded by `encode_chunk`. -/
def encodeChars : List Nat → List Nat
  | [] => []
  | b0 :: b1 :: b2 :: b3 :: b4 :: rest =>
      encode_chunk [b0, b1, b2, b3, b4] ++ encodeChars rest
  | s => encode_chunk s

/-- UTF-8 encoding of one scalar value (`char::encode_utf8`). -/
def utf8Encode (c : Nat) : List Nat :=
  if c < 0x80 then [c]
  else if c < 0x800 then [0xC0 + c / 64, 0x80 + c % 64]
  else if c < 0x10000 then [0xE0 + c / 4096, 0x80 + c / 64 % 64, 0x80 + c % 64]
  else [0xF0 + c / 0x40000, 0x80 + c / 4096 % 64, 0x80 + c / 64 % 64, 0x80 + c % 64]

/-- `encode` of `encode.rs`: the UTF-8 bytes written to the destination. -/
def encode (source : List Nat) : List Nat :=
  (encodeChars source).flatMap utf8Encode

/-! ### Code-point reader (chars.rs) -/

/-- `utf8_char_width`, the 256-entry table from `chars.rs`. -/
def utf8CharWidth (b : Nat) : Nat :=
  if b < 0x80 then 1
  else if b < 0xC2 then 0
  else if b < 0xE0 then 2
  else if b < 0xF0 then 3
  else if b < 0xF5 then 4
  else 0

/-- `str::from_utf8` on a 2-byte slice whose first byte has width 2. -/
def utf8Decode2 (b0 b1 : Nat) : Option Nat :=
  if 0x80 ≤ b1 ∧ b1 < 0xC0 then some ((b0 - 0xC0) * 64 + (b1 - 0x80)) else none

/-- `str::from_utf8` on a 3-byte slice whose first byte has width 3. -/
def utf8Decode3 (b0 b1 b2 : Nat) : Option Nat :=
  if (if b0 = 0xE0 then 0xA0 ≤ b1 ∧ b1 < 0xC0
      else if b0 = 0xED then 0x80 ≤ b1 ∧ b1 < 0xA0
      else 0x80 ≤ b1 ∧ b1 < 0xC0) ∧ 0x80 ≤ b2 ∧ b2 < 0xC0 then
    some ((b0 - 0xE0) * 4096 + (b1 - 0x80) * 64 + (b2 - 0x80))
  else none

/-- `str::from_utf8` on a 4-byte slice whose first byte has width 4. -/
def utf8Decode4 (b0 b1 b2 b3 : Nat) : Option Nat :=
  if (if b0 = 0xF0 then 0x90 ≤ b1 ∧ b1 < 0xC0
      else if b0 = 0xF4 then 0x80 ≤ b1 ∧ b1 < 0x90
      else 0x80 ≤ b1 ∧ b1 < 0xC0) ∧ 0x80 ≤ b2 ∧ b2 < 0xC0 ∧ 0x80 ≤ b3 ∧ b3 < 0xC0 then
    some ((b0 - 0xF0) * 0x40000 + (b1 - 0x80) * 4096 + (b2 - 0x80) * 64 + (b3 - 0x80))
  else none

/-- The `Chars` iterator of `chars.rs` over a pure byte list, materialised up
to and including its first `NotUtf8` item: reading ends cleanly at `[]`, a
width-1 byte is yielded directly, a multi-byte head reads its continuation
bytes (fewer than `width` bytes left, a width-0 head, or a slice rejected by
`str::from_utf8` all yield `NotUtf8`).  The `fuel` argument only drives the
recursion; every reading step consumes at least one byte, so any fuel of at
least the list length gives the iterator's behaviour (see `charsOfAux_fuel`). -/
def charsOfAux : Nat → List Nat → List (Except Unit Nat)
  | 0, _ => []
  | fuel + 1, l =>
    match l with
    | [] => []
    | b :: bs =>
      if utf8CharWidth b = 1 then Except.ok b :: charsOfAux fuel bs
      else if utf8CharWidth b = 2 then
        match bs with
        | b1 :: bs1 =>
          match utf8Decode2 b b1 with
          | some c => Except.ok c :: charsOfAux fuel bs1
          | none => [Except.error ()]
        | [] => [Except.error ()]
      else if utf8CharWidth b = 3 then
        match bs with
        | b1 :: b2 :: bs2 =>
          match utf8Decode3 b b1 b2 with
          | some c => Except.ok c :: charsOfAux fuel bs2
          | none => [Except.error ()]
        | _ => [Except.error ()]
      else if utf8CharWidth b = 4 then
        match bs with
        | b1 :: b2 :: b3 :: bs3 =>
          match utf8Decode4 b b1 b2 b3 with
          | some c => Except.ok c :: charsOfAux fuel bs3
          | none => [Except.error ()]
        | _ => [Except.error ()]
      else [Except.error ()]

/-- The materialised `Chars` iterator of `chars.rs`. -/
def charsOf (l : List Nat) : List (Except Unit Nat) := charsOfAux l.length l

/-! ### Decoder (decode.rs) -/

/-- The `io::ErrorKind` values the decoder can produce. `CharsError::into_io`
(chars.rs) constructs `ErrorKind::InvalidInput`. -/
inductive ErrorKind where
  | InvalidInput
  | InvalidData
  | UnexpectedEof
deriving DecidableEq

/-- `check_char` of `decode.rs`: a reader error is converted by
`CharsError::into_io` (which uses `ErrorKind::InvalidInput`); a code point
outside the alphabet and sentinel set is `ErrorKind::InvalidData`. -/
def check_char : Except Unit Nat → Except ErrorKind Nat
  | Except.error _ => Except.error ErrorKind.InvalidInput
  | Except.ok c =>
    if is_valid_alphabet_char c then Except.ok c
    else Except.error ErrorKind.InvalidData

/-- The per-group body of the `decode` loop: ranks `bits1..bits4`, the five
candidate bytes (the `as u8` casts modelled by `% 256`), and the
padding-driven truncation guards, in source order. -/
def decode_group (c0 c1 c2 c3 : Nat) : List Nat :=
  let bits1 := (EMOJIS_REV c0).getD 0
  let bits2 := (EMOJIS_REV c1).getD 0
  let bits3 := (EMOJIS_REV c2).getD 0
  let bits4 :=
    if c3 = PADDING_40 then 0
    else if c3 = PADDING_41 then 1 <<< 8
    else if c3 = PADDING_42 then 2 <<< 8
    else if c3 = PADDING_43 then 3 <<< 8
    else (EMOJIS_REV c3).getD 0
  let out := [bits1 >>> 2 % 256,
              ((bits1 &&& 0x3) <<< 6 ||| bits2 >>> 4) % 256,
              ((bits2 &&& 0xf) <<< 4 ||| bits3 >>> 6) % 256,
              ((bits3 &&& 0x3f) <<< 2 ||| bits4 >>> 8) % 256,
              (bits4 &&& 0xff) % 256]
  if c1 = PADDING then out.take 1
  else if c2 = PADDING then out.take 2
  else if c3 = PADDING then out.take 3
  else if c3 = PADDING_40 ∨ c3 = PADDING_41 ∨ c3 = PADDING_42 ∨ c3 = PADDING_43 then
    out.take 4
  else out

/-- The grouping loop of `decode`: code points are consumed in fours; a clean
end before a group starts terminates, an end mid-group is `UnexpectedEof`,
and every code point goes through `check_char`. -/
def decodeChars : List (Except Unit Nat) → Except ErrorKind (List Nat)
  | [] => Except.ok []
  | e0 :: rest0 =>
    match check_char e0 with
    | Except.error k => Except.error k
    | Except.ok c0 =>
      match rest0 with
      | [] => Except.error ErrorKind.UnexpectedEof
      | e1 :: rest1 =>
        match check_char e1 with
        | Except.error k => Except.error k
        | Except.ok c1 =>
          match rest1 with
          | [] => Except.error ErrorKind.UnexpectedEof
          | e2 :: rest2 =>
            match check_char e2 with
            | Except.error k => Except.error k
            | Except.ok c2 =>
              match rest2 with
              | [] => Except.error ErrorKind.UnexpectedEof
              | e3 :: rest3 =>
                match check_char e3 with
                | Except.error k => Except.error k
                | Except.ok c3 =>
                  match decodeChars rest3 with
                  | Except.error k => Except.error k
                  | Except.ok t => Except.ok (decode_group c0 c1 c2 c3 ++ t)

/-- `decode` of `decode.rs`: bytes written to the destination, or the error. -/
def decode (source : List Nat) : Except ErrorKind (List Nat) :=
  decodeChars (charsOf source)

/-! ### Arithmetic normal form of `encode_chunk` -/

/-- The numbered padding sentinel selected by the low two bits of the fourth
byte of a 4-byte chunk. -/
def PAD4X (m : Nat) : Nat :=
  if m = 0 then PADDING_40
  else if m = 1 then PADDING_41
  else if m = 2 then PADDING_42
  else PADDING_43

/-- Rank of the first output symbol, in div/mod form. -/
def R0 (s : List Nat) : Nat := 4 * s.getD 0 0 + s.getD 1 0 / 64

/-- Rank of the second output symbol, in div/mod form. -/
def R1 (s : List Nat) : Nat := 16 * (s.getD 1 0 % 64) + s.getD 2 0 / 16

/-- Rank of the third output symbol, in div/mod form. -/
def R2 (s : List Nat) : Nat := 64 * (s.getD 2 0 % 16) + s.getD 3 0 / 4

/-- Rank of the fourth output symbol of a full chunk, in div/mod form. -/
def R3 (s : List Nat) : Nat := 256 * (s.getD 3 0 % 4) + s.getD 4 0

/-- `encode_chunk` with the bit operations rewritten to div/mod arithmetic
and the length dispatch rewritten to threshold tests. -/
def chunkSyms (s : List Nat) : List Nat :=
  [EMOJIS (R0 s),
   if 2 ≤ s.length then EMOJIS (R1 s) else PADDING,
   if 3 ≤ s.length then EMOJIS (R2 s) else PADDING,
   if s.length ≤ 3 then PADDING
   else if s.length = 4 then PAD4X (s.getD 3 0 % 4)
   else EMOJIS (R3 s)]

/-- The code points an encoded stream can contain: the two low sentinels and
the contiguous block holding the 1024 table entries and the three high
sentinels. -/
def validChar (c : Nat) : Prop :=
  c = PADDING ∨ c = PADDING_40 ∨ (0x1F300 ≤ c ∧ c ≤ 0x1F300 + 1026)

/-- Strict lexicographic order on byte (or code point) sequences, as compared
by Rust slice and string ordering. -/
def lexLt : List Nat → List Nat → Bool
  | [], [] => false
  | [], _ :: _ => true
  | _ :: _, [] => false
  | a :: as_, b :: bs => a < b || (a = b && lexLt as_ bs)

/-- The sentinel set, for stating the spec's rank rules. -/
def isSentinel (c : Nat) : Prop :=
  c = PADDING ∨ c = PADDING_40 ∨ c = PADDING_41 ∨ c = PADDING_42 ∨ c = PADDING_43

instance (c : Nat) : Decidable (isSentinel c) := by
  unfold isSentinel
  infer_instance

/-- The spec's per-chunk encode table (§4.2), stated with the claim's own
formulas and length gates: `symbol_at` applied to the four bit-packings, with
`PADDING` filling positions whose gate fails and the numbered sentinel chosen
by `b3 & 0x03` for 4-byte chunks. -/
def encode_chunk_spec (s : List Nat) : List Nat :=
  let b0 := s.getD 0 0
  let b1 := s.getD 1 0
  let b2 := s.getD 2 0
  let b3 := s.getD 3 0
  let b4 := s.getD 4 0
  let len := s.length
  [EMOJIS (b0 <<< 2 ||| b1 >>> 6),
   if 2 ≤ len then EMOJIS ((b1 &&& 0x3f) <<< 4 ||| b2 >>> 4) else PADDING,
   if 3 ≤ len then EMOJIS ((b2 &&& 0x0f) <<< 6 ||| b3 >>> 2) else PADDING,
   if len ≤ 3 then PADDING
   else if len = 4 then
     (if b3 &&& 0x03 = 0 then PADDING_40
      else if b3 &&& 0x03 = 1 then PADDING_41
      else if b3 &&& 0x03 = 2 then PADDING_42
      else PADDING_43)
   else EMOJIS ((b3 &&& 0x03) <<< 8 ||| b4)]

/-- The spec's per-group decode rules (§4.3), stated with the claim's own
formulas: ranks with sentinels counting as 0, the five candidate bytes, and
the priority-ordered output length decision. -/
def decode_group_spec (c0 c1 c2 c3 : Nat) : List Nat :=
  let r0 := (EMOJIS_REV c0).getD 0
  let r1 := if isSentinel c1 then 0 else (EMOJIS_REV c1).getD 0
  let r2 := if isSentinel c2 then 0 else (EMOJIS_REV c2).getD 0
  let r3 :=
    if c3 = PADDING_40 then 0
    else if c3 = PADDING_41 then 1 <<< 8
    else if c3 = PADDING_42 then 2 <<< 8
    else if c3 = PADDING_43 then 3 <<< 8
    else (EMOJIS_REV c3).getD 0
  let out := [r0 >>> 2,
              (r0 &&& 0x3) <<< 6 ||| r1 >>> 4,
              (r1 &&& 0xF) <<< 4 ||| r2 >>> 6,
              (r2 &&& 0x3F) <<< 2 ||| r3 >>> 8,
              r3 &&& 0xFF]
  if c1 = PADDING then out.take 1
  else if c2 = PADDING then out.take 2
  else if c3 = PADDING then out.take 3
  else if c3 = PADDING_40 ∨ c3 = PADDING_41 ∨ c3 = PADDING_42 ∨ c3 = PADDING_43 then
    out.take 4
  else out

/-- The second output symbol of a chunk, as gated by the chunk length. -/
def slot1 (s : List Nat) : Nat := if 2 ≤ s.length then EMOJIS (R1 s) else PADDING

/-- The third output symbol of a chunk, as gated by the chunk length. -/
def slot2 (s : List Nat) : Nat := if 3 ≤ s.length then EMOJIS (R2 s) else PADDING

/-- The fourth output symbol of a chunk: plain padding, a numbered sentinel,
or a full alphabet symbol, by the chunk length. -/
def slot3 (s : List Nat) : Nat :=
  if s.length ≤ 3 then PADDING
  else if s.length = 4 then PAD4X (s.getD 3 0 % 4)
  else EMOJIS (R3 s)

/-- The shape of a positional strict difference between two encoded groups. -/
def symDiff (sA sB : List Nat) : Prop :=
  ∃ p a b u v, a < b ∧ chunkSyms sA = p ++ a :: u ∧ chunkSyms sB = p ++ b :: v

/-! ### Alphabet table facts -/

theorem emojis_rev_emojis : ∀ r < 1024, EMOJIS_REV (EMOJIS r) = some r := by decide

theorem emojis_rev_lt {c r : Nat} (h : EMOJIS_REV c = some r) :
    r < 1024 ∧ EMOJIS r = c := by
  unfold EMOJIS_REV at h
  split at h
  · rename_i hc
    unfold PADDING_41 PADDING_42 PADDING_43 origLine at hc
    have h' := Option.some.inj h
    unfold EMOJIS origLine
    split_ifs at h' ⊢ <;> omega
  · exact absurd h (by simp)

theorem emojis_range : ∀ r < 1024,
    0x1F300 ≤ EMOJIS r ∧ EMOJIS r ≤ 0x1F300 + 1026 := by decide

theorem emojis_mono {r s : Nat} (hs : s < 1024) (hrs : r < s) : EMOJIS r < EMOJIS s := by
  unfold EMOJIS origLine
  split_ifs <;> omega

theorem emojis_ne_sentinels : ∀ r < 1024,
    EMOJIS r ≠ PADDING ∧ EMOJIS r ≠ PADDING_40 ∧ EMOJIS r ≠ PADDING_41 ∧
      EMOJIS r ≠ PADDING_42 ∧ EMOJIS r ≠ PADDING_43 := by decide

theorem emojis_rev_padding :
    EMOJIS_REV PADDING = none ∧ EMOJIS_REV PADDING_40 = none ∧
      EMOJIS_REV PADDING_41 = none ∧ EMOJIS_REV PADDING_42 = none ∧
      EMOJIS_REV PADDING_43 = none := by
  decide

theorem is_valid_emoji : ∀ r < 1024,
    is_valid_alphabet_char (EMOJIS r) = true := by decide

theorem is_valid_sentinels :
    is_valid_alphabet_char PADDING = true ∧ is_valid_alphabet_char PADDING_40 = true ∧
      is_valid_alphabet_char PADDING_41 = true ∧ is_valid_alphabet_char PADDING_42 = true ∧
      is_valid_alphabet_char PADDING_43 = true := by
  decide

/-- Rank-threshold ordering of the three numbered sentinels drawn from the
table file: `PADDING_41` sits between ranks 255 and 256, `PADDING_42`
between 511 and 512, `PADDING_43` between 767 and 768. -/
theorem sentinel_rank_order : ∀ r < 1024,
    (r < 256 → EMOJIS r < PADDING_41) ∧ (256 ≤ r → PADDING_41 < EMOJIS r) ∧
    (r < 512 → EMOJIS r < PADDING_42) ∧ (512 ≤ r → PADDING_42 < EMOJIS r) ∧
    (r < 768 → EMOJIS r < PADDING_43) ∧ (768 ≤ r → PADDING_43 < EMOJIS r) ∧
    PADDING < EMOJIS r ∧ PADDING_40 < EMOJIS r := by decide

/-! ### Bounded bitwise arithmetic -/

theorem shl2_lor : ∀ x < 256, ∀ y < 4, x <<< 2 ||| y = 4 * x + y := by decide

theorem shl4_lor : ∀ x < 64, ∀ y < 16, x <<< 4 ||| y = 16 * x + y := by decide

theorem shl6_lor : ∀ x < 16, ∀ y < 64, x <<< 6 ||| y = 64 * x + y := by decide

theorem shl8_lor : ∀ x < 4, ∀ y < 256, x <<< 8 ||| y = 256 * x + y := by decide

theorem and3 : ∀ x < 1024, x &&& 0x3 = x % 4 := by decide

theorem and15 : ∀ x < 1024, x &&& 0xf = x % 16 := by decide

theorem and63 : ∀ x < 1024, x &&& 0x3f = x % 64 := by decide

theorem and255 : ∀ x < 1024, x &&& 0xff = x % 256 := by decide

theorem shr2 (x : Nat) : x >>> 2 = x / 4 := by
  rw [Nat.shiftRight_eq_div_pow]

theorem shr4 (x : Nat) : x >>> 4 = x / 16 := by
  rw [Nat.shiftRight_eq_div_pow]

theorem shr6 (x : Nat) : x >>> 6 = x / 64 := by
  rw [Nat.shiftRight_eq_div_pow]

theorem shr8 (x : Nat) : x >>> 8 = x / 256 := by
  rw [Nat.shiftRight_eq_div_pow]

theorem getD_lt {s : List Nat} (hb : ∀ b ∈ s, b < 256) (i : Nat) : s.getD i 0 < 256 := by
  rcases Nat.lt_or_ge i s.length with h | h
  · rw [List.getD_eq_getElem s 0 h]
    exact hb _ (List.getElem_mem h)
  · rw [List.getD_eq_default s 0 h]
    omega

theorem ranks_lt {s : List Nat} (hb : ∀ b ∈ s, b < 256) :
    R0 s < 1024 ∧ R1 s < 1024 ∧ R2 s < 1024 ∧ R3 s < 1024 := by
  have h0 := getD_lt hb 0
  have h1 := getD_lt hb 1
  have h2 := getD_lt hb 2
  have h3 := getD_lt hb 3
  have h4 := getD_lt hb 4
  unfold R0 R1 R2 R3
  omega

theorem sentinels_distinct :
    PADDING ≠ PADDING_40 ∧ PADDING ≠ PADDING_41 ∧ PADDING ≠ PADDING_42 ∧
      PADDING ≠ PADDING_43 ∧ PADDING_40 ≠ PADDING_41 ∧ PADDING_40 ≠ PADDING_42 ∧
      PADDING_40 ≠ PADDING_43 ∧ PADDING_41 ≠ PADDING_42 ∧ PADDING_41 ≠ PADDING_43 ∧
      PADDING_42 ≠ PADDING_43 := by
  decide

theorem encode_chunk_eq_chunkSyms {s : List Nat} (h1 : s ≠ []) (h5 : s.length ≤ 5)
    (hb : ∀ b ∈ s, b < 256) : encode_chunk s = chunkSyms s := by
  match s with
  | [] => exact absurd rfl h1
  | [a] =>
    have ha : a < 256 := hb a (by simp)
    simp only [encode_chunk, chunkSyms, R0, R1, R2, R3, List.getD, List.length_cons,
      List.length_nil, List.get?]
    norm_num [shl2_lor a ha 0 (by norm_num)]
  | [a, b] =>
    have ha : a < 256 := hb a (by simp)
    have hbb : b < 256 := hb b (by simp)
    simp only [encode_chunk, chunkSyms, R0, R1, R2, R3, List.getD, List.length_cons,
      List.length_nil, List.get?]
    norm_num [shr6, shr4, shl2_lor a ha (b / 64) (by omega), and63 b (by omega),
      shl4_lor (b % 64) (by omega) 0 (by norm_num)]
  | [a, b, c] =>
    have ha : a < 256 := hb a (by simp)
    have hbb : b < 256 := hb b (by simp)
    have hc : c < 256 := hb c (by simp)
    simp only [encode_chunk, chunkSyms, R0, R1, R2, R3, List.getD, List.length_cons,
      List.length_nil, List.get?]
    norm_num [shr6, shr4, shr2, shl2_lor a ha (b / 64) (by omega), and63 b (by omega),
      shl4_lor (b % 64) (by omega) (c / 16) (by omega), and15 c (by omega),
      shl6_lor (c % 16) (by omega) 0 (by norm_num)]
  | [a, b, c, d] =>
    have ha : a < 256 := hb a (by simp)
    have hbb : b < 256 := hb b (by simp)
    have hc : c < 256 := hb c (by simp)
    have hd : d < 256 := hb d (by simp)
    simp only [encode_chunk, chunkSyms, R0, R1, R2, R3, List.getD, List.length_cons,
      List.length_nil, List.get?]
    norm_num [shr6, shr4, shr2, shl2_lor a ha (b / 64) (by omega), and63 b (by omega),
      shl4_lor (b % 64) (by omega) (c / 16) (by omega), and15 c (by omega),
      shl6_lor (c % 16) (by omega) (d / 4) (by omega), and3 d (by omega), PAD4X]
    have : d % 4 = 0 ∨ d % 4 = 1 ∨ d % 4 = 2 ∨ d % 4 = 3 := by omega
    rcases this with h | h | h | h <;> simp [h]
  | [a, b, c, d, e] =>
    have ha : a < 256 := hb a (by simp)
    have hbb : b < 256 := hb b (by simp)
    have hc : c < 256 := hb c (by simp)
    have hd : d < 256 := hb d (by simp)
    have he : e < 256 := hb e (by simp)
    simp only [encode_chunk, chunkSyms, R0, R1, R2, R3, List.getD, List.length_cons,
      List.length_nil, List.get?]
    norm_num [shr6, shr4, shr2, shl2_lor a ha (b / 64) (by omega), and63 b (by omega),
      shl4_lor (b % 64) (by omega) (c / 16) (by omega), and15 c (by omega),
      shl6_lor (c % 16) (by omega) (d / 4) (by omega), and3 d (by omega),
      shl8_lor (d % 4) (by omega) e he]
  | a :: b :: c :: d :: e :: f :: t =>
    simp at h5

theorem pad4x_valid (m : Nat) : is_valid_alphabet_char (PAD4X m) = true := by
  unfold PAD4X
  split_ifs <;> decide

theorem pad4x_ne_padding (m : Nat) : PAD4X m ≠ PADDING := by
  unfold PAD4X
  split_ifs <;> decide

/-- Decoding one encoded group prepended to any tail recovers the chunk. -/
theorem decode_chunk_group {s : List Nat} (h1 : s ≠ []) (h5 : s.length ≤ 5)
    (hb : ∀ b ∈ s, b < 256) (L : List (Except Unit Nat)) :
    decodeChars ((chunkSyms s).map Except.ok ++ L) =
      match decodeChars L with
      | Except.ok t => Except.ok (s ++ t)
      | Except.error e => Except.error e := by
  obtain ⟨hr0, hr1, hr2, hr3⟩ := ranks_lt hb
  match s with
  | [] => exact absurd rfl h1
  | [a] =>
    have ha : a < 256 := hb a (by simp)
    have hg : decode_group (EMOJIS (R0 [a])) PADDING PADDING PADDING = [a] := by
      simp only [decode_group, emojis_rev_emojis _ hr0, emojis_rev_padding.1,
        Option.getD_some, Option.getD_none, if_pos rfl, sentinels_distinct.1,
        sentinels_distinct.2.1, sentinels_distinct.2.2.1, sentinels_distinct.2.2.2.1,
        if_neg, ite_false, ite_true, List.take]
      rw [shr2]
      simp only [R0, List.getD, List.get?, Option.getD_some, Option.getD_none, List.cons.injEq, and_true]
      omega
    simp only [chunkSyms, List.length_cons, List.length_nil, List.map, List.cons_append,
      List.nil_append]
    norm_num
    simp only [decodeChars, check_char, is_valid_emoji _ hr0, is_valid_sentinels.1,
      ite_true, if_pos]
    cases decodeChars L <;> simp [hg]
  | [a, b] =>
    have ha : a < 256 := hb a (by simp)
    have hbb : b < 256 := hb b (by simp)
    have hg : decode_group (EMOJIS (R0 [a, b])) (EMOJIS (R1 [a, b])) PADDING PADDING
        = [a, b] := by
      simp only [decode_group, emojis_rev_emojis _ hr0, emojis_rev_emojis _ hr1,
        emojis_rev_padding.1, Option.getD_some, Option.getD_none,
        (emojis_ne_sentinels _ hr1).1, sentinels_distinct.1, sentinels_distinct.2.1,
        sentinels_distinct.2.2.1, sentinels_distinct.2.2.2.1,
        if_neg, ite_false, if_pos rfl, ite_true, List.take]
      rw [shr2, shr4, and3 _ (by omega), shl6_lor (R0 [a, b] % 4) (by omega)
        (R1 [a, b] / 16) (by omega)]
      simp only [R0, R1, List.getD, List.get?, Option.getD_some, Option.getD_none, List.cons.injEq, and_true]
      omega
    simp only [chunkSyms, List.length_cons, List.length_nil, List.map, List.cons_append,
      List.nil_append]
    norm_num
    simp only [decodeChars, check_char, is_valid_emoji _ hr0, is_valid_emoji _ hr1,
      is_valid_sentinels.1, ite_true, if_pos]
    cases decodeChars L <;> simp [hg]
  | [a, b, c] =>
    have ha : a < 256 := hb a (by simp)
    have hbb : b < 256 := hb b (by simp)
    have hc : c < 256 := hb c (by simp)
    have hg : decode_group (EMOJIS (R0 [a, b, c])) (EMOJIS (R1 [a, b, c]))
        (EMOJIS (R2 [a, b, c])) PADDING = [a, b, c] := by
      simp only [decode_group, emojis_rev_emojis _ hr0, emojis_rev_emojis _ hr1,
        emojis_rev_emojis _ hr2, emojis_rev_padding.1, Option.getD_some, Option.getD_none,
        (emojis_ne_sentinels _ hr1).1, (emojis_ne_sentinels _ hr2).1,
        sentinels_distinct.1, sentinels_distinct.2.1, sentinels_distinct.2.2.1,
        sentinels_distinct.2.2.2.1, if_neg, ite_false, if_pos rfl, ite_true, List.take]
      rw [shr2, shr4, shr6, and3 _ (by omega), and15 _ (by omega),
        shl6_lor (R0 [a, b, c] % 4) (by omega) (R1 [a, b, c] / 16) (by omega),
        shl4_lor (R1 [a, b, c] % 16) (by omega) (R2 [a, b, c] / 64) (by omega)]
      simp only [R0, R1, R2, List.getD, List.get?, Option.getD_some, Option.getD_none, List.cons.injEq, and_true]
      omega
    simp only [chunkSyms, List.length_cons, List.length_nil, List.map, List.cons_append,
      List.nil_append]
    norm_num
    simp only [decodeChars, check_char, is_valid_emoji _ hr0, is_valid_emoji _ hr1,
      is_valid_emoji _ hr2, is_valid_sentinels.1, ite_true, if_pos]
    cases decodeChars L <;> simp [hg]
  | [a, b, c, d] =>
    have ha : a < 256 := hb a (by simp)
    have hbb : b < 256 := hb b (by simp)
    have hc : c < 256 := hb c (by simp)
    have hd : d < 256 := hb d (by simp)
    have hg : decode_group (EMOJIS (R0 [a, b, c, d])) (EMOJIS (R1 [a, b, c, d]))
        (EMOJIS (R2 [a, b, c, d])) (PAD4X (d % 4)) = [a, b, c, d] := by
      have hm : d % 4 = 0 ∨ d % 4 = 1 ∨ d % 4 = 2 ∨ d % 4 = 3 := by omega
      have key : ∀ m4 : Nat,
          (if PAD4X (d % 4) = PADDING_40 then 0
           else if PAD4X (d % 4) = PADDING_41 then 1 <<< 8
           else if PAD4X (d % 4) = PADDING_42 then 2 <<< 8
           else if PAD4X (d % 4) = PADDING_43 then 3 <<< 8
           else (EMOJIS_REV (PAD4X (d % 4))).getD 0) = m4 → m4 = 256 * (d % 4) →
          decode_group (EMOJIS (R0 [a, b, c, d])) (EMOJIS (R1 [a, b, c, d]))
            (EMOJIS (R2 [a, b, c, d])) (PAD4X (d % 4)) = [a, b, c, d] := by
        intro m4 hm4 hv
        simp only [decode_group, emojis_rev_emojis _ hr0, emojis_rev_emojis _ hr1,
          emojis_rev_emojis _ hr2, Option.getD_some,
          (emojis_ne_sentinels _ hr1).1, (emojis_ne_sentinels _ hr2).1,
          pad4x_ne_padding, if_neg, ite_false, hm4]
        have hpad : PAD4X (d % 4) = PADDING_40 ∨ PAD4X (d % 4) = PADDING_41 ∨
            PAD4X (d % 4) = PADDING_42 ∨ PAD4X (d % 4) = PADDING_43 := by
          unfold PAD4X
          split_ifs <;> simp
        rw [if_pos hpad]
        simp only [List.take]
        rw [shr2, shr4, shr6, shr8, and3 _ (by omega), and15 _ (by omega),
          and63 _ (by omega),
          shl6_lor (R0 [a, b, c, d] % 4) (by omega) (R1 [a, b, c, d] / 16) (by omega),
          shl4_lor (R1 [a, b, c, d] % 16) (by omega) (R2 [a, b, c, d] / 64) (by omega),
          shl2_lor (R2 [a, b, c, d] % 64) (by omega) (m4 / 256) (by omega)]
        simp only [R0, R1, R2, List.getD, List.get?, Option.getD_some, Option.getD_none, List.cons.injEq, and_true]
        omega
      refine key _ rfl ?_
      rcases hm with h | h | h | h <;> simp [PAD4X, h, sentinels_distinct.2.2.2.2.1,
        sentinels_distinct.2.2.2.2.2.1, sentinels_distinct.2.2.2.2.2.2.1,
        (sentinels_distinct.2.2.2.2.2.2.2.1).symm,
        (sentinels_distinct.2.2.2.2.2.2.2.2.1).symm,
        (sentinels_distinct.2.2.2.2.2.2.2.2.2).symm] <;> decide
    simp only [chunkSyms, List.length_cons, List.length_nil, List.map, List.cons_append,
      List.nil_append]
    norm_num
    simp only [decodeChars, check_char, is_valid_emoji _ hr0, is_valid_emoji _ hr1,
      is_valid_emoji _ hr2, pad4x_valid, ite_true, if_pos]
    cases decodeChars L <;> simp [hg]
  | [a, b, c, d, e] =>
    have ha : a < 256 := hb a (by simp)
    have hbb : b < 256 := hb b (by simp)
    have hc : c < 256 := hb c (by simp)
    have hd : d < 256 := hb d (by simp)
    have he : e < 256 := hb e (by simp)
    have hg : decode_group (EMOJIS (R0 [a, b, c, d, e])) (EMOJIS (R1 [a, b, c, d, e]))
        (EMOJIS (R2 [a, b, c, d, e])) (EMOJIS (R3 [a, b, c, d, e])) = [a, b, c, d, e] := by
      simp only [decode_group, emojis_rev_emojis _ hr0, emojis_rev_emojis _ hr1,
        emojis_rev_emojis _ hr2, emojis_rev_emojis _ hr3, Option.getD_some,
        (emojis_ne_sentinels _ hr1).1, (emojis_ne_sentinels _ hr2).1,
        (emojis_ne_sentinels _ hr3).1, (emojis_ne_sentinels _ hr3).2.1,
        (emojis_ne_sentinels _ hr3).2.2.1, (emojis_ne_sentinels _ hr3).2.2.2.1,
        (emojis_ne_sentinels _ hr3).2.2.2.2, if_neg, ite_false, or_self, or_false,
        false_or]
      rw [shr2, shr4, shr6, shr8, and3 _ (by omega), and15 _ (by omega),
        and63 _ (by omega), and255 _ (by omega),
        shl6_lor (R0 [a, b, c, d, e] % 4) (by omega) (R1 [a, b, c, d, e] / 16) (by omega),
        shl4_lor (R1 [a, b, c, d, e] % 16) (by omega) (R2 [a, b, c, d, e] / 64) (by omega),
        shl2_lor (R2 [a, b, c, d, e] % 64) (by omega) (R3 [a, b, c, d, e] / 256) (by omega)]
      simp only [R0, R1, R2, R3, List.getD, List.get?, Option.getD_some, Option.getD_none, List.cons.injEq, and_true]
      omega
    simp only [chunkSyms, List.length_cons, List.length_nil, List.map, List.cons_append,
      List.nil_append]
    norm_num
    simp only [decodeChars, check_char, is_valid_emoji _ hr0, is_valid_emoji _ hr1,
      is_valid_emoji _ hr2, is_valid_emoji _ hr3, ite_true, if_pos]
    cases decodeChars L <;> simp [hg]
  | a :: b :: c :: d :: e :: f :: t =>
    simp at h5

/-! ### The UTF-8 writer and the code-point reader agree on the alphabet -/

theorem charsOfAux_fuel :
    ∀ f (l : List Nat) (f' : Nat), l.length ≤ f → l.length ≤ f' →
      charsOfAux f l = charsOfAux f' l := by
  intro f
  induction f with
  | zero =>
    intro l f' hl _
    have hn : l = [] := List.eq_nil_of_length_eq_zero (by omega)
    subst hn
    cases f' <;> rfl
  | succ f ih =>
    intro l f' hl hl'
    cases l with
    | nil => cases f' <;> rfl
    | cons b bs =>
      cases f' with
      | zero => simp at hl'
      | succ f'' =>
        simp only [List.length_cons] at hl hl'
        show (if utf8CharWidth b = 1 then Except.ok b :: charsOfAux f bs else _)
            = (if utf8CharWidth b = 1 then Except.ok b :: charsOfAux f'' bs else _)
        split_ifs with h1 h2 h3 h4
        · rw [ih bs f'' (by omega) (by omega)]
        · cases bs with
          | nil => rfl
          | cons b1 bs1 =>
            show (match utf8Decode2 b b1 with
                  | some c => Except.ok c :: charsOfAux f bs1
                  | none => [Except.error ()])
                = (match utf8Decode2 b b1 with
                  | some c => Except.ok c :: charsOfAux f'' bs1
                  | none => [Except.error ()])
            cases utf8Decode2 b b1 with
            | none => rfl
            | some c =>
              simp only [List.length_cons] at hl hl'
              show Except.ok c :: charsOfAux f bs1 = Except.ok c :: charsOfAux f'' bs1
              rw [ih bs1 f'' (by omega) (by omega)]
        · match bs with
          | [] => rfl
          | [b1] => rfl
          | b1 :: b2 :: bs2 =>
            show (match utf8Decode3 b b1 b2 with
                  | some c => Except.ok c :: charsOfAux f bs2
                  | none => [Except.error ()])
                = (match utf8Decode3 b b1 b2 with
                  | some c => Except.ok c :: charsOfAux f'' bs2
                  | none => [Except.error ()])
            have h32 : (b1 :: b2 :: bs2).length + 1 ≤ f + 1 := hl
            have h32' : (b1 :: b2 :: bs2).length + 1 ≤ f'' + 1 := hl'
            simp only [List.length_cons] at h32 h32'
            cases utf8Decode3 b b1 b2 with
            | none => rfl
            | some c =>
              show Except.ok c :: charsOfAux f bs2 = Except.ok c :: charsOfAux f'' bs2
              rw [ih bs2 f'' (by omega) (by omega)]
        · match bs with
          | [] => rfl
          | [b1] => rfl
          | [b1, b2] => rfl
          | b1 :: b2 :: b3 :: bs3 =>
            show (match utf8Decode4 b b1 b2 b3 with
                  | some c => Except.ok c :: charsOfAux f bs3
                  | none => [Except.error ()])
                = (match utf8Decode4 b b1 b2 b3 with
                  | some c => Except.ok c :: charsOfAux f'' bs3
                  | none => [Except.error ()])
            have h43 : (b1 :: b2 :: b3 :: bs3).length + 1 ≤ f + 1 := hl
            have h43' : (b1 :: b2 :: b3 :: bs3).length + 1 ≤ f'' + 1 := hl'
            simp only [List.length_cons] at h43 h43'
            cases utf8Decode4 b b1 b2 b3 with
            | none => rfl
            | some c =>
              show Except.ok c :: charsOfAux f bs3 = Except.ok c :: charsOfAux f'' bs3
              rw [ih bs3 f'' (by omega) (by omega)]
        · rfl

theorem charsOf_utf8_padding (X : List Nat) :
    charsOf (utf8Encode PADDING ++ X) = Except.ok PADDING :: charsOf X := by
  show charsOfAux (X.length + 3) (0xE2 :: 0x98 :: 0x95 :: X) = _
  show Except.ok PADDING :: charsOfAux (X.length + 2) X = _
  rw [charsOfAux_fuel (X.length + 2) X X.length (by omega) le_rfl]
  rfl

theorem charsOf_utf8_padding40 (X : List Nat) :
    charsOf (utf8Encode PADDING_40 ++ X) = Except.ok PADDING_40 :: charsOf X := by
  show charsOfAux (X.length + 3) (0xE2 :: 0x9A :: 0x9C :: X) = _
  show Except.ok PADDING_40 :: charsOfAux (X.length + 2) X = _
  rw [charsOfAux_fuel (X.length + 2) X X.length (by omega) le_rfl]
  rfl

theorem charsOf_utf8_high {c : Nat} (h1 : 0x10000 ≤ c) (h2 : c < 0x20000) (X : List Nat) :
    charsOf (utf8Encode c ++ X) = Except.ok c :: charsOf X := by
  have hz : c / 0x40000 = 0 := by omega
  have he : utf8Encode c
      = [0xF0, 0x80 + c / 4096 % 64, 0x80 + c / 64 % 64, 0x80 + c % 64] := by
    unfold utf8Encode
    rw [if_neg (by omega), if_neg (by omega), if_neg (by omega), hz]
  rw [he]
  have hv : utf8Decode4 0xF0 (0x80 + c / 4096 % 64) (0x80 + c / 64 % 64) (0x80 + c % 64)
      = some c := by
    unfold utf8Decode4
    rw [if_pos (by norm_num; omega)]
    congr 1
    omega
  show charsOfAux (X.length + 4) (0xF0 :: (0x80 + c / 4096 % 64) :: (0x80 + c / 64 % 64)
      :: (0x80 + c % 64) :: X) = _
  show (match utf8Decode4 0xF0 (0x80 + c / 4096 % 64) (0x80 + c / 64 % 64)
          (0x80 + c % 64) with
        | some cc => Except.ok cc :: charsOfAux (X.length + 3) X
        | none => [Except.error ()]) = _
  rw [hv, charsOfAux_fuel (X.length + 3) X X.length (by omega) le_rfl]
  rfl

theorem charsOf_utf8_validChar {c : Nat} (h : validChar c) (X : List Nat) :
    charsOf (utf8Encode c ++ X) = Except.ok c :: charsOf X := by
  rcases h with rfl | rfl | ⟨h1, h2⟩
  · exact charsOf_utf8_padding X
  · exact charsOf_utf8_padding40 X
  · exact charsOf_utf8_high (by omega) (by omega) X

/-- The UTF-8 byte stream written for any sequence of alphabet and sentinel
code points reads back as exactly that code-point sequence, with no error. -/
theorem charsOf_flatMap {cs : List Nat} (h : ∀ c ∈ cs, validChar c) :
    charsOf (cs.flatMap utf8Encode) = cs.map Except.ok := by
  induction cs with
  | nil => rfl
  | cons c t ih =>
    rw [List.flatMap_cons, charsOf_utf8_validChar (h c (by simp)),
      ih (fun x hx => h x (by simp [hx])), List.map_cons]

theorem pad4x_validChar (m : Nat) : validChar (PAD4X m) := by
  unfold PAD4X
  split_ifs <;> (unfold validChar; decide)

theorem chunkSyms_valid {s : List Nat} (hb : ∀ b ∈ s, b < 256) :
    ∀ c ∈ chunkSyms s, validChar c := by
  obtain ⟨hr0, hr1, hr2, hr3⟩ := ranks_lt hb
  have hrange : ∀ r < 1024, validChar (EMOJIS r) := by
    intro r hr
    exact Or.inr (Or.inr (emojis_range r hr))
  have hpad : validChar PADDING := Or.inl rfl
  intro c hc
  simp only [chunkSyms, List.mem_cons, List.not_mem_nil, or_false] at hc
  rcases hc with rfl | rfl | rfl | rfl
  · exact hrange _ hr0
  · split <;> [exact hrange _ hr1; exact hpad]
  · split <;> [exact hrange _ hr2; exact hpad]
  · split
    · exact hpad
    · split
      · exact pad4x_validChar _
      · exact hrange _ hr3

/-- `encodeChars` always processes the first `min 5 (length)` bytes as one
chunk and recurses on the rest. -/
theorem encodeChars_eq_chunks {s : List Nat} (h : s ≠ []) :
    encodeChars s = encode_chunk (s.take 5) ++ encodeChars (s.drop 5) := by
  match s with
  | [] => exact absurd rfl h
  | [a] => simp [encodeChars]
  | [a, b] => simp [encodeChars]
  | [a, b, c] => simp [encodeChars]
  | [a, b, c, d] => simp [encodeChars]
  | a :: b :: c :: d :: e :: t => simp [encodeChars, List.take, List.drop]

theorem encodeChars_valid :
    ∀ n (s : List Nat), s.length ≤ n → (∀ b ∈ s, b < 256) →
      ∀ c ∈ encodeChars s, validChar c := by
  intro n
  induction n with
  | zero =>
    intro s hl _ c hc
    have hs : s = [] := List.eq_nil_of_length_eq_zero (by omega)
    subst hs
    simp [encodeChars] at hc
  | succ n ih =>
    intro s hl hb c hc
    rcases eq_or_ne s [] with rfl | hne
    · simp [encodeChars] at hc
    · rw [encodeChars_eq_chunks hne,
        encode_chunk_eq_chunkSyms (by simp [hne]) (by simp)
          (fun b hbm => hb b (List.mem_of_mem_take hbm))] at hc
      rcases List.mem_append.1 hc with h | h
      · exact chunkSyms_valid (fun b hbm => hb b (List.mem_of_mem_take hbm)) c h
      · have hlen : s.length ≠ 0 := fun h0 => hne (List.eq_nil_of_length_eq_zero h0)
        exact ih (s.drop 5) (by simp; omega) (fun b hbm => hb b (List.mem_of_mem_drop hbm)) c h

/-- Decoding the symbols of an encoded stream, followed by anything else,
yields the original bytes followed by the decoding of the remainder. -/
theorem decode_encode_app :
    ∀ n (s : List Nat) (L : List (Except Unit Nat)), s.length ≤ n → (∀ b ∈ s, b < 256) →
      decodeChars ((encodeChars s).map Except.ok ++ L) =
        match decodeChars L with
        | Except.ok t => Except.ok (s ++ t)
        | Except.error e => Except.error e := by
  intro n
  induction n with
  | zero =>
    intro s L hl _
    have hs : s = [] := List.eq_nil_of_length_eq_zero (by omega)
    subst hs
    simp only [encodeChars, List.map_nil, List.nil_append]
    cases decodeChars L <;> simp
  | succ n ih =>
    intro s L hl hb
    rcases eq_or_ne s [] with rfl | hne
    · simp only [encodeChars, List.map_nil, List.nil_append]
      cases decodeChars L <;> simp
    · have htb : ∀ b ∈ s.take 5, b < 256 := fun b hbm => hb b (List.mem_of_mem_take hbm)
      rw [encodeChars_eq_chunks hne,
        encode_chunk_eq_chunkSyms (by simp [hne]) (by simp) htb,
        List.map_append, List.append_assoc,
        decode_chunk_group (by simp [hne]) (by simp) htb]
      have hlen : s.length ≠ 0 := fun h0 => hne (List.eq_nil_of_length_eq_zero h0)
      rw [ih (s.drop 5) L (by simp; omega) (fun b hbm => hb b (List.mem_of_mem_drop hbm))]
      cases decodeChars L with
      | error e => simp
      | ok t =>
        simp only []
        rw [← List.append_assoc, List.take_append_drop]

/-! ### Output shape of the encoder -/

theorem encode_chunk_length {s : List Nat} (h1 : s ≠ []) (h5 : s.length ≤ 5) :
    (encode_chunk s).length = 4 := by
  match s with
  | [] => exact absurd rfl h1
  | [a] => rfl
  | [a, b] => rfl
  | [a, b, c] => rfl
  | [a, b, c, d] => rfl
  | [a, b, c, d, e] => rfl
  | a :: b :: c :: d :: e :: f :: t => simp at h5

theorem encodeChars_length :
    ∀ n (s : List Nat), s.length ≤ n →
      (encodeChars s).length = 4 * ((s.length + 4) / 5) := by
  intro n
  induction n with
  | zero =>
    intro s hl
    have hs : s = [] := List.eq_nil_of_length_eq_zero (by omega)
    subst hs
    rfl
  | succ n ih =>
    intro s hl
    rcases eq_or_ne s [] with rfl | hne
    · rfl
    · have hlen : s.length ≠ 0 := fun h0 => hne (List.eq_nil_of_length_eq_zero h0)
      rw [encodeChars_eq_chunks hne, List.length_append,
        encode_chunk_length (by simp [hne]) (by simp),
        ih (s.drop 5) (by simp; omega)]
      simp only [List.length_drop]
      omega

theorem validChar_is_valid {c : Nat} (h : validChar c) :
    is_valid_alphabet_char c = true := by
  rcases h with rfl | rfl | ⟨h1, h2⟩
  · decide
  · decide
  · by_cases h41 : c = PADDING_41
    · subst h41; decide
    · by_cases h42 : c = PADDING_42
      · subst h42; decide
      · by_cases h43 : c = PADDING_43
        · subst h43; decide
        · unfold is_valid_alphabet_char EMOJIS_REV
          rw [if_pos ⟨h1, h2, h41, h42, h43⟩]
          simp

/-! ### Error classification of the decoder -/

theorem check_char_err (u : Unit) :
    check_char (Except.error u) = Except.error ErrorKind.InvalidInput := rfl

theorem check_char_valid {c : Nat} (hv : is_valid_alphabet_char c = true) :
    check_char (Except.ok c) = Except.ok c := by
  simp [check_char, hv]

theorem check_char_invalid {c : Nat} (hv : ¬ is_valid_alphabet_char c = true) :
    check_char (Except.ok c) = Except.error ErrorKind.InvalidData := by
  simp [check_char, hv]

/-- The decoder's grouping loop fails with `UnexpectedEof` exactly when every
item of the code-point stream is a valid alphabet member yet the stream
length is not a multiple of four. -/
theorem decodeChars_eof_iff :
    ∀ n (L : List (Except Unit Nat)), L.length ≤ n →
      (decodeChars L = Except.error ErrorKind.UnexpectedEof ↔
        (L.length % 4 ≠ 0 ∧
          ∀ e ∈ L, ∃ c, e = Except.ok c ∧ is_valid_alphabet_char c = true)) := by
  intro n
  induction n with
  | zero =>
    intro L hl
    have hL : L = [] := List.eq_nil_of_length_eq_zero (by omega)
    subst hL
    simp [decodeChars]
  | succ n ih =>
    intro L hl
    match L with
    | [] => simp [decodeChars]
    | e0 :: rest0 =>
      rw [decodeChars]
      cases e0 with
      | error u =>
        simp only [check_char_err]
        constructor
        · intro h
          simp at h
        · rintro ⟨_, hall⟩
          obtain ⟨c, hc, _⟩ := hall (Except.error u) (by simp)
          simp at hc
      | ok c0 =>
        by_cases hv0 : is_valid_alphabet_char c0 = true
        · simp only [check_char_valid hv0]
          match rest0 with
          | [] =>
            constructor
            · intro _
              refine ⟨by simp, ?_⟩
              intro e he
              simp at he
              exact ⟨c0, by rw [he], hv0⟩
            · intro _
              rfl
          | e1 :: rest1 =>
            cases e1 with
            | error u =>
              simp only [check_char_err]
              constructor
              · intro h
                simp at h
              · rintro ⟨_, hall⟩
                obtain ⟨c, hc, _⟩ := hall (Except.error u) (by simp)
                simp at hc
            | ok c1 =>
              by_cases hv1 : is_valid_alphabet_char c1 = true
              · simp only [check_char_valid hv1]
                match rest1 with
                | [] =>
                  constructor
                  · intro _
                    refine ⟨by simp, ?_⟩
                    intro e he
                    rcases List.mem_cons.1 he with rfl | heA
                    · exact ⟨c0, rfl, hv0⟩
                    · simp at heA
                      exact ⟨c1, by rw [heA], hv1⟩
                  · intro _
                    rfl
                | e2 :: rest2 =>
                  cases e2 with
                  | error u =>
                    simp only [check_char_err]
                    constructor
                    · intro h
                      simp at h
                    · rintro ⟨_, hall⟩
                      obtain ⟨c, hc, _⟩ := hall (Except.error u) (by simp)
                      simp at hc
                  | ok c2 =>
                    by_cases hv2 : is_valid_alphabet_char c2 = true
                    · simp only [check_char_valid hv2]
                      match rest2 with
                      | [] =>
                        constructor
                        · intro _
                          refine ⟨by simp, ?_⟩
                          intro e he
                          rcases List.mem_cons.1 he with rfl | heA
                          · exact ⟨c0, rfl, hv0⟩
                          rcases List.mem_cons.1 heA with rfl | heB
                          · exact ⟨c1, rfl, hv1⟩
                          · simp at heB
                            exact ⟨c2, by rw [heB], hv2⟩
                        · intro _
                          rfl
                      | e3 :: rest3 =>
                        cases e3 with
                        | error u =>
                          simp only [check_char_err]
                          constructor
                          · intro h
                            simp at h
                          · rintro ⟨_, hall⟩
                            obtain ⟨c, hc, _⟩ := hall (Except.error u) (by simp)
                            simp at hc
                        | ok c3 =>
                          by_cases hv3 : is_valid_alphabet_char c3 = true
                          · simp only [check_char_valid hv3]
                            have hrec := ih rest3 (by simp at hl; omega)
                            cases hd : decodeChars rest3 with
                            | error k =>
                              simp only [hd]
                              constructor
                              · intro h
                                have hk : k = ErrorKind.UnexpectedEof := by
                                  cases h
                                  rfl
                                subst hk
                                obtain ⟨hm, hall⟩ := hrec.1 hd
                                refine ⟨by simp; omega, ?_⟩
                                intro e he
                                rcases List.mem_cons.1 he with rfl | heA
                                · exact ⟨c0, rfl, hv0⟩
                                rcases List.mem_cons.1 heA with rfl | heB
                                · exact ⟨c1, rfl, hv1⟩
                                rcases List.mem_cons.1 heB with rfl | heC
                                · exact ⟨c2, rfl, hv2⟩
                                rcases List.mem_cons.1 heC with rfl | heD
                                · exact ⟨c3, rfl, hv3⟩
                                · exact hall e heD
                              · rintro ⟨hm, hall⟩
                                have hmq : rest3.length % 4 ≠ 0 := by
                                  simp at hm
                                  omega
                                have hallq : ∀ e ∈ rest3, ∃ c, e = Except.ok c ∧
                                    is_valid_alphabet_char c = true := by
                                  intro e he
                                  exact hall e (by simp [he])
                                have hres := hrec.2 ⟨hmq, hallq⟩
                                rw [hd] at hres
                                cases hres
                                rfl
                            | ok t =>
                              simp only [hd]
                              constructor
                              · intro h
                                simp at h
                              · rintro ⟨hm, hall⟩
                                have hmq : rest3.length % 4 ≠ 0 := by
                                  simp at hm
                                  omega
                                have hallq : ∀ e ∈ rest3, ∃ c, e = Except.ok c ∧
                                    is_valid_alphabet_char c = true := by
                                  intro e he
                                  exact hall e (by simp [he])
                                have hres := hrec.2 ⟨hmq, hallq⟩
                                rw [hd] at hres
                                cases hres
                          · simp only [check_char_invalid hv3]
                            constructor
                            · intro h
                              simp at h
                            · rintro ⟨_, hall⟩
                              obtain ⟨c, hc, hvv⟩ := hall (Except.ok c3) (by simp)
                              rw [show c3 = c from by simpa using hc] at hv3
                              exact absurd hvv hv3
                    · simp only [check_char_invalid hv2]
                      constructor
                      · intro h
                        simp at h
                      · rintro ⟨_, hall⟩
                        obtain ⟨c, hc, hvv⟩ := hall (Except.ok c2) (by simp)
                        rw [show c2 = c from by simpa using hc] at hv2
                        exact absurd hvv hv2
              · simp only [check_char_invalid hv1]
                constructor
                · intro h
                  simp at h
                · rintro ⟨_, hall⟩
                  obtain ⟨c, hc, hvv⟩ := hall (Except.ok c1) (by simp)
                  rw [show c1 = c from by simpa using hc] at hv1
                  exact absurd hvv hv1
        · simp only [check_char_invalid hv0]
          constructor
          · intro h
            simp at h
          · rintro ⟨_, hall⟩
            obtain ⟨c, hc, hvv⟩ := hall (Except.ok c0) (by simp)
            rw [show c0 = c from by simpa using hc] at hv0
            exact absurd hvv hv0

theorem rev_getD_lt (c : Nat) : (EMOJIS_REV c).getD 0 < 1024 := by
  cases h : EMOJIS_REV c with
  | none => simp
  | some r => simpa using (emojis_rev_lt h).1

theorem rev_isSome_iff (c : Nat) :
    (EMOJIS_REV c).isSome = true ↔ ∃ r, r < 1024 ∧ EMOJIS r = c := by
  constructor
  · intro h
    cases hh : EMOJIS_REV c with
    | none => rw [hh] at h; cases h
    | some r =>
      obtain ⟨h1, h2⟩ := emojis_rev_lt hh
      exact ⟨r, h1, h2⟩
  · rintro ⟨r, hr, rfl⟩
    rw [emojis_rev_emojis r hr]
    rfl

/-! ### Claims -/

/-- C1: for every byte sequence `B`, decoding the result of encoding `B`
yields exactly `B` — `decode (encode B) = Ok B`, where `encode` writes the
UTF-8 encoding of the symbol groups and `decode` reads them back. -/
theorem claim_C1_roundtrip (B : List Nat) (hb : ∀ b ∈ B, b < 256) :
    decode (encode B) = Except.ok B := by
  unfold decode encode
  rw [charsOf_flatMap (encodeChars_valid B.length B le_rfl hb)]
  have happx := decode_encode_app B.length B [] le_rfl hb
  rw [List.append_nil] at happx
  rw [happx]
  simp [decodeChars]

/-- C2: for every chunk of 1 to 5 bytes, `encode_chunk` produces exactly the
4 symbols given by the spec's bit formulas and padding gates (missing
trailing bytes read as 0, the 4th symbol being `PADDING` for lengths up to
3, the numbered sentinel chosen by `b3 & 0x03` at length 4, and
`symbol_at(((b3 & 0x03) << 8) | b4)` at length 5). -/
theorem claim_C2_encode_chunk (s : List Nat) (h1 : s ≠ []) (h5 : s.length ≤ 5) :
    encode_chunk s = encode_chunk_spec s := by
  match s with
  | [] => exact absurd rfl h1
  | [a] => simp [encode_chunk, encode_chunk_spec]
  | [a, b] => simp [encode_chunk, encode_chunk_spec]
  | [a, b, c] => simp [encode_chunk, encode_chunk_spec]
  | [a, b, c, d] =>
    have hd3 : d &&& 3 ≤ 3 := Nat.and_le_right
    have hcase : d &&& 3 = 0 ∨ d &&& 3 = 1 ∨ d &&& 3 = 2 ∨ d &&& 3 = 3 := by omega
    simp only [encode_chunk, encode_chunk_spec, List.length_cons, List.length_nil,
      List.getD, List.get?, Option.getD_some, Option.getD_none]
    norm_num
    rcases hcase with h | h | h | h <;> simp [h]
  | [a, b, c, d, e] => simp [encode_chunk, encode_chunk_spec]
  | a :: b :: c :: d :: e :: f :: t => simp at h5

/-- C3: for every 4-symbol group, the decoder computes the four ranks (with
sentinels counting as rank 0 and the numbered sentinels contributing
`0/1<<8/2<<8/3<<8`), rebuilds the 5 candidate bytes by the given bit
formulas, and truncates by the priority-ordered padding guards — exactly the
spec's per-group table `decode_group_spec`. -/
theorem claim_C3_decode_group (c0 c1 c2 c3 : Nat) :
    decode_group c0 c1 c2 c3 = decode_group_spec c0 c1 c2 c3 := by
  have hb1 : (EMOJIS_REV c0).getD 0 < 1024 := rev_getD_lt c0
  have hb2 : (EMOJIS_REV c1).getD 0 < 1024 := rev_getD_lt c1
  have hb3 : (EMOJIS_REV c2).getD 0 < 1024 := rev_getD_lt c2
  have hr1 : (if isSentinel c1 then 0 else (EMOJIS_REV c1).getD 0)
      = (EMOJIS_REV c1).getD 0 := by
    split_ifs with h
    · rcases h with rfl | rfl | rfl | rfl | rfl <;>
        simp [emojis_rev_padding.1, emojis_rev_padding.2.1, emojis_rev_padding.2.2.1,
          emojis_rev_padding.2.2.2.1, emojis_rev_padding.2.2.2.2]
    · rfl
  have hr2 : (if isSentinel c2 then 0 else (EMOJIS_REV c2).getD 0)
      = (EMOJIS_REV c2).getD 0 := by
    split_ifs with h
    · rcases h with rfl | rfl | rfl | rfl | rfl <;>
        simp [emojis_rev_padding.1, emojis_rev_padding.2.1, emojis_rev_padding.2.2.1,
          emojis_rev_padding.2.2.2.1, emojis_rev_padding.2.2.2.2]
    · rfl
  have hb4 : (if c3 = PADDING_40 then 0
      else if c3 = PADDING_41 then 1 <<< 8
      else if c3 = PADDING_42 then 2 <<< 8
      else if c3 = PADDING_43 then 3 <<< 8
      else (EMOJIS_REV c3).getD 0) < 1024 := by
    split_ifs <;> first | decide | exact rev_getD_lt c3
  have key : ∀ b1 b2 b3 b4 : Nat, b1 < 1024 → b2 < 1024 → b3 < 1024 → b4 < 1024 →
      [b1 >>> 2 % 256,
       ((b1 &&& 0x3) <<< 6 ||| b2 >>> 4) % 256,
       ((b2 &&& 0xf) <<< 4 ||| b3 >>> 6) % 256,
       ((b3 &&& 0x3f) <<< 2 ||| b4 >>> 8) % 256,
       (b4 &&& 0xff) % 256]
      = [b1 >>> 2,
         (b1 &&& 0x3) <<< 6 ||| b2 >>> 4,
         (b2 &&& 0xF) <<< 4 ||| b3 >>> 6,
         (b3 &&& 0x3F) <<< 2 ||| b4 >>> 8,
         b4 &&& 0xFF] := by
    intro b1 b2 b3 b4 h1 h2 h3 h4
    rw [shr2 b1, shr4 b2, shr6 b3, shr8 b4, and3 b1 h1, and15 b2 h2, and63 b3 h3,
      and255 b4 h4,
      shl6_lor (b1 % 4) (by omega) (b2 / 16) (by omega),
      shl4_lor (b2 % 16) (by omega) (b3 / 64) (by omega),
      shl2_lor (b3 % 64) (by omega) (b4 / 256) (by omega)]
    simp only [List.cons.injEq, and_true]
    omega
  simp only [decode_group, decode_group_spec, hr1, hr2]
  rw [key _ _ _ _ hb1 hb2 hb3 hb4]

/-- C5 records what the code actually does on malformed UTF-8: the
`CharsError` from the code-point reader is wrapped by `CharsError::into_io`
as `ErrorKind::InvalidInput` (chars.rs line 28), not the `InvalidData` the
claim (and `decode`'s own doc example at decode.rs lines 46–57, for exactly
this input) promises.  The byte `0xFE` has UTF-8 width 0, so the reader
yields `NotUtf8` at once. -/
theorem claim_C5_malformed_utf8_kind :
    decode [0xFE, 0xFE, 0xFF, 0xFF] = Except.error ErrorKind.InvalidInput ∧
      ErrorKind.InvalidInput ≠ ErrorKind.InvalidData := by
  exact ⟨rfl, by decide⟩

/-- C6: `decode` fails with `UnexpectedEof` exactly when the code-point
stream of the input runs out mid-group with no earlier error: every stream
item is a valid alphabet member, yet the total code-point count is not a
multiple of 4. -/
theorem claim_C6_unexpected_eof (bytes : List Nat) :
    decode bytes = Except.error ErrorKind.UnexpectedEof ↔
      ((charsOf bytes).length % 4 ≠ 0 ∧
        ∀ e ∈ charsOf bytes, ∃ c, e = Except.ok c ∧
          is_valid_alphabet_char c = true) := by
  unfold decode
  exact decodeChars_eof_iff (charsOf bytes).length (charsOf bytes) le_rfl

/-- C7: a code point that is neither one of the 1024 alphabet symbols nor
one of the 5 sentinels makes `check_char` fail with `InvalidData`; a code
point passing the check is returned unchanged and is a member of the
alphabet or sentinel set. -/
theorem claim_C7_alphabet_check (c : Nat) :
    (check_char (Except.ok c) = Except.error ErrorKind.InvalidData ↔
      ¬ is_valid_alphabet_char c = true) ∧
    (check_char (Except.ok c) = Except.ok c ↔ is_valid_alphabet_char c = true) ∧
    (is_valid_alphabet_char c = true ↔
      (isSentinel c ∨ ∃ r, r < 1024 ∧ EMOJIS r = c)) := by
  refine ⟨?_, ?_, ?_⟩
  · by_cases hv : is_valid_alphabet_char c = true
    · rw [check_char_valid hv]
      simp [hv]
    · rw [check_char_invalid hv]
      simp [hv]
  · by_cases hv : is_valid_alphabet_char c = true
    · rw [check_char_valid hv]
      simp [hv]
    · rw [check_char_invalid hv]
      simp [hv]
  · unfold is_valid_alphabet_char
    rw [Bool.or_eq_true]
    constructor
    · rintro (h | h)
      · left
        simp only [List.elem_eq_mem, decide_eq_true_eq, List.mem_cons,
          List.not_mem_nil, or_false] at h
        exact h
      · exact Or.inr ((rev_isSome_iff c).1 h)
    · rintro (h | h)
      · left
        simp only [List.elem_eq_mem, decide_eq_true_eq, List.mem_cons,
          List.not_mem_nil, or_false]
        exact h
      · exact Or.inr ((rev_isSome_iff c).2 h)

/-- C8: the encoder's output is valid UTF-8 — the code-point reader parses it
back with no error as exactly the symbol sequence — whose code-point count is
`4 * ceil(n / 5)`, every code point being an alphabet symbol or sentinel;
hence `encode_to_string`'s unchecked conversion is sound. -/
theorem claim_C8_output_shape (B : List Nat) (hb : ∀ b ∈ B, b < 256) :
    charsOf (encode B) = (encodeChars B).map Except.ok ∧
    (encodeChars B).length = 4 * ((B.length + 4) / 5) ∧
    ∀ c ∈ encodeChars B, is_valid_alphabet_char c = true := by
  refine ⟨?_, ?_, ?_⟩
  · unfold encode
    exact charsOf_flatMap (encodeChars_valid B.length B le_rfl hb)
  · exact encodeChars_length B.length B le_rfl
  · intro c hc
    exact validChar_is_valid (encodeChars_valid B.length B le_rfl hb c hc)

/-- C9: decoding the concatenation of two encoded streams yields the
concatenation of the original byte sequences, because each encoded stream is
a whole number of self-contained 4-symbol groups. -/
theorem claim_C9_concat (A B : List Nat) (ha : ∀ b ∈ A, b < 256)
    (hb : ∀ b ∈ B, b < 256) :
    decode (encode A ++ encode B) = Except.ok (A ++ B) := by
  unfold decode encode
  rw [← List.flatMap_append]
  have hvalid : ∀ c ∈ encodeChars A ++ encodeChars B, validChar c := by
    intro c hc
    rcases List.mem_append.1 hc with h | h
    · exact encodeChars_valid A.length A le_rfl ha c h
    · exact encodeChars_valid B.length B le_rfl hb c h
  rw [charsOf_flatMap hvalid, List.map_append]
  rw [decode_encode_app A.length A _ le_rfl ha]
  have happx := decode_encode_app B.length B [] le_rfl hb
  rw [List.append_nil] at happx
  rw [happx]
  simp [decodeChars]

/-- C10: an empty input is clean end-of-stream for both operations: `encode`
writes nothing and returns `Ok(0)`, and `decode` writes nothing and returns
`Ok(0)` (the byte counts being the lengths of the produced outputs). -/
theorem claim_C10_empty :
    encode [] = [] ∧ decode [] = Except.ok [] := by
  exact ⟨rfl, rfl⟩

/-! ### Lexicographic order machinery (for the order-preservation claim) -/

theorem lexLt_irrefl (l : List Nat) : lexLt l l = false := by
  induction l with
  | nil => rfl
  | cons a t ih => simp [lexLt, ih]

theorem lexLt_nil_right (l : List Nat) : lexLt l [] = false := by
  cases l <;> rfl

theorem lexLt_nil_left {l : List Nat} (h : l ≠ []) : lexLt [] l = true := by
  cases l with
  | nil => exact absurd rfl h
  | cons a t => rfl

theorem lexLt_append_same (p u v : List Nat) : lexLt (p ++ u) (p ++ v) = lexLt u v := by
  induction p with
  | nil => rfl
  | cons a t ih => simp [lexLt, ih]

theorem lexLt_of_diff {a b : Nat} (h : a < b) (p u v : List Nat) :
    lexLt (p ++ a :: u) (p ++ b :: v) = true := by
  induction p with
  | nil => simp [lexLt, h]
  | cons c t ih => simp [lexLt, ih]

theorem lexLt_append_right (x : List Nat) {w : List Nat} (h : w ≠ []) :
    lexLt x (x ++ w) = true := by
  have hh := lexLt_append_same x [] w
  rw [List.append_nil] at hh
  rw [hh]
  exact lexLt_nil_left h

theorem lexLt_iff (u v : List Nat) :
    lexLt u v = true ↔
      ((∃ p a b uu vv, a < b ∧ u = p ++ a :: uu ∧ v = p ++ b :: vv) ∨
        (∃ w, w ≠ [] ∧ v = u ++ w)) := by
  induction u generalizing v with
  | nil =>
    cases v with
    | nil =>
      simp only [lexLt]
      constructor
      · intro h
        cases h
      · rintro (⟨p, a, b, uu, vv, hab, hu, hv⟩ | ⟨w, hw, hv⟩)
        · cases p <;> simp at hu
        · simp at hv
          exact absurd hv hw
    | cons c t =>
      constructor
      · intro _
        exact Or.inr ⟨c :: t, by simp, by simp⟩
      · intro _
        rfl
  | cons a u' ih =>
    cases v with
    | nil =>
      rw [lexLt_nil_right]
      constructor
      · intro h
        cases h
      · rintro (⟨p, x, y, uu, vv, hxy, hu, hv⟩ | ⟨w, hw, hv⟩)
        · cases p <;> simp at hv
        · simp at hv
    | cons b v' =>
      have hL : lexLt (a :: u') (b :: v') = true ↔
          (a < b ∨ (a = b ∧ lexLt u' v' = true)) := by
        show (decide (a < b) || (decide (a = b) && lexLt u' v')) = true ↔ _
        simp [Bool.or_eq_true, Bool.and_eq_true, decide_eq_true_eq]
      rw [hL]
      constructor
      · rintro (hab | ⟨rfl, hrec⟩)
        · exact Or.inl ⟨[], a, b, u', v', hab, rfl, rfl⟩
        · rcases (ih v').1 hrec with ⟨p, x, y, uu, vv, hxy, hu, hv⟩ | ⟨w, hw, hv⟩
          · exact Or.inl ⟨a :: p, x, y, uu, vv, hxy, by rw [hu]; rfl, by rw [hv]; rfl⟩
          · exact Or.inr ⟨w, hw, by rw [hv]; rfl⟩
      · rintro (⟨p, x, y, uu, vv, hxy, hu, hv⟩ | ⟨w, hw, hv⟩)
        · cases p with
          | nil =>
            simp only [List.nil_append, List.cons.injEq] at hu hv
            left
            omega
          | cons c p' =>
            simp only [List.cons_append, List.cons.injEq] at hu hv
            right
            obtain ⟨rfl, huq⟩ := hu
            obtain ⟨hbc, hvq⟩ := hv
            exact ⟨by omega,
              (ih v').2 (Or.inl ⟨p', x, y, uu, vv, hxy, huq, hvq⟩)⟩
        · rw [List.cons_append] at hv
          simp only [List.cons.injEq] at hv
          obtain ⟨hba, hvq⟩ := hv
          right
          exact ⟨by omega, (ih v').2 (Or.inr ⟨w, hw, hvq⟩)⟩

theorem R0_eq (s : List Nat) : R0 s = 4 * s.getD 0 0 + s.getD 1 0 / 64 := rfl

theorem R1_eq (s : List Nat) : R1 s = 16 * (s.getD 1 0 % 64) + s.getD 2 0 / 16 := rfl

theorem R2_eq (s : List Nat) : R2 s = 64 * (s.getD 2 0 % 16) + s.getD 3 0 / 4 := rfl

theorem R3_eq (s : List Nat) : R3 s = 256 * (s.getD 3 0 % 4) + s.getD 4 0 := rfl

theorem pad4x_mono : ∀ mb ≤ 3, ∀ ma < mb, PAD4X ma < PAD4X mb := by decide

theorem padding_lt_pad4x (m : Nat) : PADDING < PAD4X m := by
  unfold PAD4X
  split_ifs <;> decide

theorem pad4x_lt_emoji {m r : Nat} (hm : m ≤ 3) (hr : r < 1024) (hle : 256 * m ≤ r) :
    PAD4X m < EMOJIS r := by
  have hs := sentinel_rank_order r hr
  interval_cases m
  · exact hs.2.2.2.2.2.2.2
  · exact (by rw [show PAD4X 1 = PADDING_41 from rfl]; exact hs.2.1 (by omega))
  · exact (by rw [show PAD4X 2 = PADDING_42 from rfl]; exact hs.2.2.2.1 (by omega))
  · exact (by rw [show PAD4X 3 = PADDING_43 from rfl]; exact hs.2.2.2.2.2.1 (by omega))

theorem emoji_lt_pad4x {m r : Nat} (hm : m ≤ 3) (hr : r < 1024) (hgt : r < 256 * m) :
    EMOJIS r < PAD4X m := by
  have hs := sentinel_rank_order r hr
  interval_cases m
  · omega
  · exact (by rw [show PAD4X 1 = PADDING_41 from rfl]; exact hs.1 (by omega))
  · exact (by rw [show PAD4X 2 = PADDING_42 from rfl]; exact hs.2.2.1 (by omega))
  · exact (by rw [show PAD4X 3 = PADDING_43 from rfl]; exact hs.2.2.2.2.1 (by omega))

theorem padding_lt_emoji {r : Nat} (hr : r < 1024) : PADDING < EMOJIS r :=
  (sentinel_rank_order r hr).2.2.2.2.2.2.1

theorem chunkSyms_slots (s : List Nat) :
    chunkSyms s = [EMOJIS (R0 s), slot1 s, slot2 s, slot3 s] := rfl

theorem cascade0 {sA sB : List Nat} (hB : R0 sB < 1024) (h : R0 sA < R0 sB) :
    symDiff sA sB :=
  ⟨[], EMOJIS (R0 sA), EMOJIS (R0 sB), [slot1 sA, slot2 sA, slot3 sA],
    [slot1 sB, slot2 sB, slot3 sB], emojis_mono hB h, rfl, rfl⟩

theorem cascade1 {sA sB : List Nat} {a b : Nat} (h0 : R0 sA = R0 sB) (hab : a < b)
    (ha : slot1 sA = a) (hb : slot1 sB = b) :
    symDiff sA sB := by
  refine ⟨[EMOJIS (R0 sA)], a, b, [slot2 sA, slot3 sA], [slot2 sB, slot3 sB],
    hab, ?_, ?_⟩
  · rw [chunkSyms_slots, ha]
    rfl
  · rw [chunkSyms_slots, hb, ← h0]
    rfl

theorem cascade2 {sA sB : List Nat} {a b : Nat}
    (h0 : R0 sA = R0 sB) (h1 : R1 sA = R1 sB) (hab : a < b)
    (h1A : slot1 sA = EMOJIS (R1 sA)) (h1B : slot1 sB = EMOJIS (R1 sB))
    (ha : slot2 sA = a) (hb : slot2 sB = b) :
    symDiff sA sB := by
  refine ⟨[EMOJIS (R0 sA), EMOJIS (R1 sA)], a, b, [slot3 sA], [slot3 sB],
    hab, ?_, ?_⟩
  · rw [chunkSyms_slots, h1A, ha]
    rfl
  · rw [chunkSyms_slots, h1B, hb, ← h0, ← h1]
    rfl

theorem cascade3 {sA sB : List Nat} {a b : Nat}
    (h0 : R0 sA = R0 sB) (h1 : R1 sA = R1 sB) (h2 : R2 sA = R2 sB) (hab : a < b)
    (h1A : slot1 sA = EMOJIS (R1 sA)) (h1B : slot1 sB = EMOJIS (R1 sB))
    (h2A : slot2 sA = EMOJIS (R2 sA)) (h2B : slot2 sB = EMOJIS (R2 sB))
    (ha : slot3 sA = a) (hb : slot3 sB = b) :
    symDiff sA sB := by
  refine ⟨[EMOJIS (R0 sA), EMOJIS (R1 sA), EMOJIS (R2 sA)], a, b, [], [],
    hab, ?_, ?_⟩
  · rw [chunkSyms_slots, h1A, h2A, ha]
    rfl
  · rw [chunkSyms_slots, h1B, h2B, hb, ← h0, ← h1, ← h2]
    rfl

theorem lexLt_take {u v : List Nat} (h : lexLt u v = true) :
    ∀ n, u.take n = v.take n ∨ lexLt (u.take n) (v.take n) = true := by
  induction u generalizing v with
  | nil =>
    intro n
    cases v with
    | nil => exact Or.inl rfl
    | cons b v' =>
      cases n with
      | zero => exact Or.inl rfl
      | succ n => exact Or.inr (lexLt_nil_left (by simp))
  | cons a u' ih =>
    intro n
    cases v with
    | nil => rw [lexLt_nil_right] at h; cases h
    | cons b v' =>
      cases n with
      | zero => exact Or.inl rfl
      | succ n =>
        have h' : (decide (a < b) || (decide (a = b) && lexLt u' v')) = true := h
        simp only [Bool.or_eq_true, Bool.and_eq_true, decide_eq_true_eq] at h'
        rcases h' with hab | ⟨hab, hrec⟩
        · refine Or.inr ?_
          show lexLt (a :: u'.take n) (b :: v'.take n) = true
          simp [lexLt, hab]
        · subst hab
          rcases ih hrec n with heq | hlt
          · exact Or.inl (by simp [heq])
          · refine Or.inr ?_
            show lexLt (a :: u'.take n) (a :: v'.take n) = true
            simp [lexLt, hlt]

theorem slot1_pad (z0 : Nat) : slot1 [z0] = PADDING := rfl

theorem slot1_full (z0 z1 : Nat) (t : List Nat) :
    slot1 (z0 :: z1 :: t) = EMOJIS (R1 (z0 :: z1 :: t)) := by
  unfold slot1
  rw [if_pos]
  show 2 ≤ t.length + 1 + 1
  omega

theorem slot2_pad1 (z0 : Nat) : slot2 [z0] = PADDING := rfl

theorem slot2_pad2 (z0 z1 : Nat) : slot2 [z0, z1] = PADDING := rfl

theorem slot2_full (z0 z1 z2 : Nat) (t : List Nat) :
    slot2 (z0 :: z1 :: z2 :: t) = EMOJIS (R2 (z0 :: z1 :: z2 :: t)) := by
  unfold slot2
  rw [if_pos]
  show 3 ≤ t.length + 1 + 1 + 1
  omega

theorem slot3_pad1 (z0 : Nat) : slot3 [z0] = PADDING := rfl

theorem slot3_pad2 (z0 z1 : Nat) : slot3 [z0, z1] = PADDING := rfl

theorem slot3_pad3 (z0 z1 z2 : Nat) : slot3 [z0, z1, z2] = PADDING := rfl

theorem slot3_four (z0 z1 z2 z3 : Nat) :
    slot3 [z0, z1, z2, z3] = PAD4X (z3 % 4) := rfl

theorem slot3_five (z0 z1 z2 z3 z4 : Nat) :
    slot3 [z0, z1, z2, z3, z4] = EMOJIS (R3 [z0, z1, z2, z3, z4]) := rfl

/-- Chunk-level order preservation: a lexicographically smaller chunk encodes
to a symbol group that differs strictly below at some position. -/
theorem chunk_lt {sA sB : List Nat} (hA1 : sA ≠ []) (hA5 : sA.length ≤ 5)
    (hB5 : sB.length ≤ 5) (hbA : ∀ z ∈ sA, z < 256) (hbB : ∀ z ∈ sB, z < 256)
    (hlt : lexLt sA sB = true) : symDiff sA sB := by
  rcases (lexLt_iff sA sB).1 hlt with ⟨p, xa, yb, uu, vv, hxy, rfl, rfl⟩ | ⟨w, hw, rfl⟩
  · rcases p with _ | ⟨p0, _ | ⟨p1, _ | ⟨p2, _ | ⟨p3, _ | ⟨p4, prest⟩⟩⟩⟩⟩
    · -- difference at byte 0
      simp only [List.nil_append] at hbA hbB ⊢
      have hu1 : (xa :: uu).getD 1 0 < 256 := getD_lt hbA 1
      have hv1 : (yb :: vv).getD 1 0 < 256 := getD_lt hbB 1
      refine cascade0 (ranks_lt hbB).1 ?_
      rw [R0_eq, R0_eq]
      show 4 * xa + (xa :: uu).getD 1 0 / 64 < 4 * yb + (yb :: vv).getD 1 0 / 64
      omega
    · -- difference at byte 1
      simp only [List.cons_append, List.nil_append] at hbA hbB ⊢
      have hu2 : (p0 :: xa :: uu).getD 2 0 < 256 := getD_lt hbA 2
      have hv2 : (p0 :: yb :: vv).getD 2 0 < 256 := getD_lt hbB 2
      have e0A : R0 (p0 :: xa :: uu) = 4 * p0 + xa / 64 := rfl
      have e0B : R0 (p0 :: yb :: vv) = 4 * p0 + yb / 64 := rfl
      rcases Nat.lt_or_ge (R0 (p0 :: xa :: uu)) (R0 (p0 :: yb :: vv)) with h | h
      · exact cascade0 (ranks_lt hbB).1 h
      · have h0 : R0 (p0 :: xa :: uu) = R0 (p0 :: yb :: vv) := by
          rw [e0A, e0B] at h ⊢
          omega
        have e1A : R1 (p0 :: xa :: uu)
            = 16 * (xa % 64) + (p0 :: xa :: uu).getD 2 0 / 16 := rfl
        have e1B : R1 (p0 :: yb :: vv)
            = 16 * (yb % 64) + (p0 :: yb :: vv).getD 2 0 / 16 := rfl
        have h1 : R1 (p0 :: xa :: uu) < R1 (p0 :: yb :: vv) := by
          rw [e0A, e0B] at h
          rw [e1A, e1B]
          omega
        exact cascade1 h0 (emojis_mono (ranks_lt hbB).2.1 h1)
          (slot1_full p0 xa uu) (slot1_full p0 yb vv)
    · -- difference at byte 2
      simp only [List.cons_append, List.nil_append] at hbA hbB ⊢
      have hu3 : (p0 :: p1 :: xa :: uu).getD 3 0 < 256 := getD_lt hbA 3
      have hv3 : (p0 :: p1 :: yb :: vv).getD 3 0 < 256 := getD_lt hbB 3
      have h0 : R0 (p0 :: p1 :: xa :: uu) = R0 (p0 :: p1 :: yb :: vv) := rfl
      have e1A : R1 (p0 :: p1 :: xa :: uu) = 16 * (p1 % 64) + xa / 16 := rfl
      have e1B : R1 (p0 :: p1 :: yb :: vv) = 16 * (p1 % 64) + yb / 16 := rfl
      rcases Nat.lt_or_ge (R1 (p0 :: p1 :: xa :: uu)) (R1 (p0 :: p1 :: yb :: vv))
        with h | h
      · exact cascade1 h0 (emojis_mono (ranks_lt hbB).2.1 h)
          (slot1_full p0 p1 (xa :: uu)) (slot1_full p0 p1 (yb :: vv))
      · have h1 : R1 (p0 :: p1 :: xa :: uu) = R1 (p0 :: p1 :: yb :: vv) := by
          rw [e1A, e1B] at h ⊢
          omega
        have e2A : R2 (p0 :: p1 :: xa :: uu)
            = 64 * (xa % 16) + (p0 :: p1 :: xa :: uu).getD 3 0 / 4 := rfl
        have e2B : R2 (p0 :: p1 :: yb :: vv)
            = 64 * (yb % 16) + (p0 :: p1 :: yb :: vv).getD 3 0 / 4 := rfl
        have h2 : R2 (p0 :: p1 :: xa :: uu) < R2 (p0 :: p1 :: yb :: vv) := by
          rw [e1A, e1B] at h
          rw [e2A, e2B]
          omega
        exact cascade2 h0 h1 (emojis_mono (ranks_lt hbB).2.2.1 h2)
          (slot1_full p0 p1 (xa :: uu)) (slot1_full p0 p1 (yb :: vv))
          (slot2_full p0 p1 xa uu) (slot2_full p0 p1 yb vv)
    · -- difference at byte 3
      simp only [List.cons_append, List.nil_append] at hbA hbB hA5 hB5 ⊢
      have h0 : R0 (p0 :: p1 :: p2 :: xa :: uu) = R0 (p0 :: p1 :: p2 :: yb :: vv) := rfl
      have h1 : R1 (p0 :: p1 :: p2 :: xa :: uu) = R1 (p0 :: p1 :: p2 :: yb :: vv) := rfl
      have e2A : R2 (p0 :: p1 :: p2 :: xa :: uu) = 64 * (p2 % 16) + xa / 4 := rfl
      have e2B : R2 (p0 :: p1 :: p2 :: yb :: vv) = 64 * (p2 % 16) + yb / 4 := rfl
      rcases Nat.lt_or_ge (R2 (p0 :: p1 :: p2 :: xa :: uu))
        (R2 (p0 :: p1 :: p2 :: yb :: vv)) with h | h
      · exact cascade2 h0 h1 (emojis_mono (ranks_lt hbB).2.2.1 h)
          (slot1_full p0 p1 (p2 :: xa :: uu)) (slot1_full p0 p1 (p2 :: yb :: vv))
          (slot2_full p0 p1 p2 (xa :: uu)) (slot2_full p0 p1 p2 (yb :: vv))
      · have h2 : R2 (p0 :: p1 :: p2 :: xa :: uu) = R2 (p0 :: p1 :: p2 :: yb :: vv) := by
          rw [e2A, e2B] at h ⊢
          omega
        have hm : xa % 4 < yb % 4 := by
          rw [e2A, e2B] at h
          omega
        rcases uu with _ | ⟨a4, _ | ⟨a5, uur⟩⟩
        · rcases vv with _ | ⟨b4, _ | ⟨b5, vvr⟩⟩
          · exact cascade3 h0 h1 h2 (pad4x_mono (yb % 4) (by omega) (xa % 4) hm)
              (slot1_full p0 p1 (p2 :: xa :: [])) (slot1_full p0 p1 (p2 :: yb :: []))
              (slot2_full p0 p1 p2 (xa :: [])) (slot2_full p0 p1 p2 (yb :: []))
              (slot3_four p0 p1 p2 xa) (slot3_four p0 p1 p2 yb)
          · have e3B : R3 [p0, p1, p2, yb, b4] = 256 * (yb % 4) + b4 := rfl
            exact cascade3 h0 h1 h2
              (pad4x_lt_emoji (by omega) (ranks_lt hbB).2.2.2 (by rw [e3B]; omega))
              (slot1_full p0 p1 (p2 :: xa :: [])) (slot1_full p0 p1 (p2 :: yb :: [b4]))
              (slot2_full p0 p1 p2 (xa :: [])) (slot2_full p0 p1 p2 (yb :: [b4]))
              (slot3_four p0 p1 p2 xa) (slot3_five p0 p1 p2 yb b4)
          · simp at hB5
        · rcases vv with _ | ⟨b4, _ | ⟨b5, vvr⟩⟩
          · have ha4 : a4 < 256 := getD_lt hbA 4
            have e3A : R3 [p0, p1, p2, xa, a4] = 256 * (xa % 4) + a4 := rfl
            exact cascade3 h0 h1 h2
              (emoji_lt_pad4x (by omega) (ranks_lt hbA).2.2.2 (by rw [e3A]; omega))
              (slot1_full p0 p1 (p2 :: xa :: [a4])) (slot1_full p0 p1 (p2 :: yb :: []))
              (slot2_full p0 p1 p2 (xa :: [a4])) (slot2_full p0 p1 p2 (yb :: []))
              (slot3_five p0 p1 p2 xa a4) (slot3_four p0 p1 p2 yb)
          · have ha4 : a4 < 256 := getD_lt hbA 4
            have e3A : R3 [p0, p1, p2, xa, a4] = 256 * (xa % 4) + a4 := rfl
            have e3B : R3 [p0, p1, p2, yb, b4] = 256 * (yb % 4) + b4 := rfl
            have h3 : R3 [p0, p1, p2, xa, a4] < R3 [p0, p1, p2, yb, b4] := by
              rw [e3A, e3B]
              omega
            exact cascade3 h0 h1 h2 (emojis_mono (ranks_lt hbB).2.2.2 h3)
              (slot1_full p0 p1 (p2 :: xa :: [a4])) (slot1_full p0 p1 (p2 :: yb :: [b4]))
              (slot2_full p0 p1 p2 (xa :: [a4])) (slot2_full p0 p1 p2 (yb :: [b4]))
              (slot3_five p0 p1 p2 xa a4) (slot3_five p0 p1 p2 yb b4)
          · simp at hB5
        · simp at hA5
    · -- difference at byte 4
      simp only [List.cons_append, List.nil_append] at hbA hbB hA5 hB5 ⊢
      rcases uu with _ | ⟨a5, uur⟩
      · rcases vv with _ | ⟨b5, vvr⟩
        · have h0 : R0 [p0, p1, p2, p3, xa] = R0 [p0, p1, p2, p3, yb] := rfl
          have h1 : R1 [p0, p1, p2, p3, xa] = R1 [p0, p1, p2, p3, yb] := rfl
          have h2 : R2 [p0, p1, p2, p3, xa] = R2 [p0, p1, p2, p3, yb] := rfl
          have e3A : R3 [p0, p1, p2, p3, xa] = 256 * (p3 % 4) + xa := rfl
          have e3B : R3 [p0, p1, p2, p3, yb] = 256 * (p3 % 4) + yb := rfl
          have h3 : R3 [p0, p1, p2, p3, xa] < R3 [p0, p1, p2, p3, yb] := by
            rw [e3A, e3B]
            omega
          exact cascade3 h0 h1 h2 (emojis_mono (ranks_lt hbB).2.2.2 h3)
            (slot1_full p0 p1 (p2 :: p3 :: [xa])) (slot1_full p0 p1 (p2 :: p3 :: [yb]))
            (slot2_full p0 p1 p2 (p3 :: [xa])) (slot2_full p0 p1 p2 (p3 :: [yb]))
            (slot3_five p0 p1 p2 p3 xa) (slot3_five p0 p1 p2 p3 yb)
        · simp at hB5
      · simp at hA5
    · exfalso
      simp [List.length_append] at hA5
  · -- sA is a strict prefix of sB
    rcases sA with _ | ⟨a0, _ | ⟨a1, _ | ⟨a2, _ | ⟨a3, _ | ⟨a4, arest⟩⟩⟩⟩⟩
    · exact absurd rfl hA1
    · rcases w with _ | ⟨w0, w'⟩
      · exact absurd rfl hw
      · simp only [List.cons_append, List.nil_append] at hbB hB5 ⊢
        have e0A : R0 [a0] = 4 * a0 + 0 / 64 := rfl
        have e0B : R0 (a0 :: w0 :: w') = 4 * a0 + w0 / 64 := rfl
        rcases Nat.lt_or_ge (R0 [a0]) (R0 (a0 :: w0 :: w')) with h | h
        · exact cascade0 (ranks_lt hbB).1 h
        · have h0 : R0 [a0] = R0 (a0 :: w0 :: w') := by
            rw [e0A, e0B] at h ⊢
            omega
          exact cascade1 h0 (padding_lt_emoji (ranks_lt hbB).2.1)
            (slot1_pad a0) (slot1_full a0 w0 w')
    · rcases w with _ | ⟨w0, w'⟩
      · exact absurd rfl hw
      · simp only [List.cons_append, List.nil_append] at hbB hB5 ⊢
        have h0 : R0 [a0, a1] = R0 (a0 :: a1 :: w0 :: w') := rfl
        have e1A : R1 [a0, a1] = 16 * (a1 % 64) + 0 / 16 := rfl
        have e1B : R1 (a0 :: a1 :: w0 :: w') = 16 * (a1 % 64) + w0 / 16 := rfl
        rcases Nat.lt_or_ge (R1 [a0, a1]) (R1 (a0 :: a1 :: w0 :: w')) with h | h
        · exact cascade1 h0 (emojis_mono (ranks_lt hbB).2.1 h)
            (slot1_full a0 a1 []) (slot1_full a0 a1 (w0 :: w'))
        · have h1 : R1 [a0, a1] = R1 (a0 :: a1 :: w0 :: w') := by
            rw [e1A, e1B] at h ⊢
            omega
          exact cascade2 h0 h1 (padding_lt_emoji (ranks_lt hbB).2.2.1)
            (slot1_full a0 a1 []) (slot1_full a0 a1 (w0 :: w'))
            (slot2_pad2 a0 a1) (slot2_full a0 a1 w0 w')
    · rcases w with _ | ⟨w0, w'⟩
      · exact absurd rfl hw
      · simp only [List.cons_append, List.nil_append] at hbB hB5 ⊢
        have h0 : R0 [a0, a1, a2] = R0 (a0 :: a1 :: a2 :: w0 :: w') := rfl
        have h1 : R1 [a0, a1, a2] = R1 (a0 :: a1 :: a2 :: w0 :: w') := rfl
        have e2A : R2 [a0, a1, a2] = 64 * (a2 % 16) + 0 / 4 := rfl
        have e2B : R2 (a0 :: a1 :: a2 :: w0 :: w') = 64 * (a2 % 16) + w0 / 4 := rfl
        rcases Nat.lt_or_ge (R2 [a0, a1, a2]) (R2 (a0 :: a1 :: a2 :: w0 :: w'))
          with h | h
        · exact cascade2 h0 h1 (emojis_mono (ranks_lt hbB).2.2.1 h)
            (slot1_full a0 a1 [a2]) (slot1_full a0 a1 (a2 :: w0 :: w'))
            (slot2_full a0 a1 a2 []) (slot2_full a0 a1 a2 (w0 :: w'))
        · have h2 : R2 [a0, a1, a2] = R2 (a0 :: a1 :: a2 :: w0 :: w') := by
            rw [e2A, e2B] at h ⊢
            omega
          rcases w' with _ | ⟨w1, w''⟩
          · exact cascade3 h0 h1 h2 (padding_lt_pad4x (w0 % 4))
              (slot1_full a0 a1 [a2]) (slot1_full a0 a1 [a2, w0])
              (slot2_full a0 a1 a2 []) (slot2_full a0 a1 a2 [w0])
              (slot3_pad3 a0 a1 a2) (slot3_four a0 a1 a2 w0)
          · rcases w'' with _ | ⟨w2, w'''⟩
            · exact cascade3 h0 h1 h2 (padding_lt_emoji (ranks_lt hbB).2.2.2)
                (slot1_full a0 a1 [a2]) (slot1_full a0 a1 [a2, w0, w1])
                (slot2_full a0 a1 a2 []) (slot2_full a0 a1 a2 [w0, w1])
                (slot3_pad3 a0 a1 a2) (slot3_five a0 a1 a2 w0 w1)
            · simp at hB5
    · rcases w with _ | ⟨w0, w'⟩
      · exact absurd rfl hw
      · simp only [List.cons_append, List.nil_append] at hbB hB5 ⊢
        rcases w' with _ | ⟨w1, w''⟩
        · have h0 : R0 [a0, a1, a2, a3] = R0 [a0, a1, a2, a3, w0] := rfl
          have h1 : R1 [a0, a1, a2, a3] = R1 [a0, a1, a2, a3, w0] := rfl
          have h2 : R2 [a0, a1, a2, a3] = R2 [a0, a1, a2, a3, w0] := rfl
          have e3B : R3 [a0, a1, a2, a3, w0] = 256 * (a3 % 4) + w0 := rfl
          exact cascade3 h0 h1 h2
            (pad4x_lt_emoji (by omega) (ranks_lt hbB).2.2.2 (by rw [e3B]; omega))
            (slot1_full a0 a1 [a2, a3]) (slot1_full a0 a1 [a2, a3, w0])
            (slot2_full a0 a1 a2 [a3]) (slot2_full a0 a1 a2 [a3, w0])
            (slot3_four a0 a1 a2 a3) (slot3_five a0 a1 a2 a3 w0)
        · simp at hB5
    · exfalso
      have hc : arest = [] ∧ w = [] := by simpa [List.length_append] using hB5
      exact hw hc.2

theorem utf8Encode_ne_nil (c : Nat) : utf8Encode c ≠ [] := by
  unfold utf8Encode
  split_ifs <;> simp

theorem utf8Encode_high {c : Nat} (h1 : 0x1F000 ≤ c) (h2 : c < 0x20000) :
    utf8Encode c = [0xF0, 0x9F, 0x80 + c / 64 % 64, 0x80 + c % 64] := by
  have hz : c / 0x40000 = 0 := by omega
  unfold utf8Encode
  rw [if_neg (by omega), if_neg (by omega), if_neg (by omega), hz]
  have hb1 : 0x80 + c / 4096 % 64 = 0x9F := by omega
  rw [hb1]

theorem utf8_lt {c cq : Nat} (hc : validChar c) (hcq : validChar cq) (h : c < cq)
    (xs ys : List Nat) :
    lexLt (utf8Encode c ++ xs) (utf8Encode cq ++ ys) = true := by
  have hP : utf8Encode PADDING = [0xE2, 0x98, 0x95] := by decide
  have hP40 : utf8Encode PADDING_40 = [0xE2, 0x9A, 0x9C] := by decide
  rcases hc with rfl | rfl | ⟨hc1, hc2⟩
  · rcases hcq with rfl | rfl | ⟨hq1, hq2⟩
    · exact absurd h (by decide)
    · rw [hP, hP40]
      exact lexLt_of_diff (by norm_num) [0xE2] (0x95 :: xs) (0x9C :: ys)
    · rw [hP, utf8Encode_high (by omega) (by omega)]
      exact lexLt_of_diff (show 0xE2 < 0xF0 by norm_num) []
        (0x98 :: 0x95 :: xs) (0x9F :: (0x80 + cq / 64 % 64) :: (0x80 + cq % 64) :: ys)
  · rcases hcq with rfl | rfl | ⟨hq1, hq2⟩
    · exact absurd h (by decide)
    · exact absurd h (by decide)
    · rw [hP40, utf8Encode_high (by omega) (by omega)]
      exact lexLt_of_diff (show 0xE2 < 0xF0 by norm_num) []
        (0x9A :: 0x9C :: xs) (0x9F :: (0x80 + cq / 64 % 64) :: (0x80 + cq % 64) :: ys)
  · rcases hcq with rfl | rfl | ⟨hq1, hq2⟩
    · have hp : PADDING = 0x2615 := rfl
      omega
    · have hp : PADDING_40 = 0x269C := rfl
      omega
    · rw [utf8Encode_high (by omega) (by omega), utf8Encode_high (by omega) (by omega)]
      rcases Nat.lt_or_ge (c / 64) (cq / 64) with hd | hd
      · have hb2 : 0x80 + c / 64 % 64 < 0x80 + cq / 64 % 64 := by omega
        exact lexLt_of_diff hb2 [0xF0, 0x9F] ((0x80 + c % 64) :: xs)
          ((0x80 + cq % 64) :: ys)
      · have hd2 : c / 64 = cq / 64 := by omega
        have hb3 : 0x80 + c % 64 < 0x80 + cq % 64 := by omega
        rw [hd2]
        exact lexLt_of_diff hb3 [0xF0, 0x9F, 0x80 + cq / 64 % 64] xs ys

theorem flatMap_utf8_lt {cs cs' : List Nat} (hv : ∀ c ∈ cs, validChar c)
    (hv' : ∀ c ∈ cs', validChar c) (h : lexLt cs cs' = true) :
    lexLt (cs.flatMap utf8Encode) (cs'.flatMap utf8Encode) = true := by
  rcases (lexLt_iff cs cs').1 h with ⟨p, a, b, uu, vv, hab, rfl, rfl⟩ | ⟨w, hw, rfl⟩
  · rw [List.flatMap_append, List.flatMap_append, List.flatMap_cons, List.flatMap_cons,
      ← List.append_assoc, ← List.append_assoc]
    rw [List.append_assoc (p.flatMap utf8Encode), List.append_assoc (p.flatMap utf8Encode)]
    rw [lexLt_append_same]
    exact utf8_lt (hv a (by simp)) (hv' b (by simp)) hab _ _
  · rw [List.flatMap_append]
    apply lexLt_append_right
    cases w with
    | nil => exact absurd rfl hw
    | cons c w' =>
      rw [List.flatMap_cons]
      intro hcontra
      exact utf8Encode_ne_nil c (List.append_eq_nil.1 hcontra).1

theorem encodeChars_ne_nil {B : List Nat} (h : B ≠ []) : encodeChars B ≠ [] := by
  rw [encodeChars_eq_chunks h]
  have h4 : (encode_chunk (B.take 5)).length = 4 :=
    encode_chunk_length (by simp [h]) (by simp)
  intro hcon
  obtain ⟨hc1, _⟩ := List.append_eq_nil.1 hcon
  rw [hc1] at h4
  simp at h4

theorem encodeChars_lt :
    ∀ n (A B : List Nat), A.length ≤ n → (∀ z ∈ A, z < 256) → (∀ z ∈ B, z < 256) →
      lexLt A B = true → lexLt (encodeChars A) (encodeChars B) = true := by
  intro n
  induction n with
  | zero =>
    intro A B hl hbA hbB h
    have hA : A = [] := List.eq_nil_of_length_eq_zero (by omega)
    subst hA
    cases B with
    | nil => cases h
    | cons b t =>
      show lexLt [] (encodeChars (b :: t)) = true
      exact lexLt_nil_left (encodeChars_ne_nil (by simp))
  | succ n ih =>
    intro A B hl hbA hbB h
    rcases eq_or_ne A [] with rfl | hAne
    · cases B with
      | nil => cases h
      | cons b t =>
        show lexLt [] (encodeChars (b :: t)) = true
        exact lexLt_nil_left (encodeChars_ne_nil (by simp))
    · rcases eq_or_ne B [] with rfl | hBne
      · rw [lexLt_nil_right] at h
        cases h
      · by_cases htake : A.take 5 = B.take 5
        · rcases Nat.lt_or_ge A.length 5 with hA5 | hA5
          · have htA : A.take 5 = A := List.take_of_length_le (by omega)
            rcases Nat.lt_or_ge B.length 5 with hB5 | hB5
            · have htB : B.take 5 = B := List.take_of_length_le (by omega)
              have hAB : A = B := by rw [← htA, htake, htB]
              rw [hAB, lexLt_irrefl] at h
              cases h
            · have hlen : (B.take 5).length = 5 := by
                rw [List.length_take]
                omega
              rw [← htake, htA] at hlen
              omega
          · rw [encodeChars_eq_chunks hAne, encodeChars_eq_chunks hBne, htake,
              lexLt_append_same]
            have hlA : A.length ≠ 0 := fun h0 => hAne (List.eq_nil_of_length_eq_zero h0)
            have h2 : lexLt (A.take 5 ++ A.drop 5) (B.take 5 ++ B.drop 5) = true := by
              rwa [List.take_append_drop, List.take_append_drop]
            rw [htake, lexLt_append_same] at h2
            exact ih (A.drop 5) (B.drop 5) (by simp; omega)
              (fun z hz => hbA z (List.mem_of_mem_drop hz))
              (fun z hz => hbB z (List.mem_of_mem_drop hz)) h2
        · rcases lexLt_take h 5 with heq | hlt5
          · exact absurd heq htake
          · have hsd := @chunk_lt (A.take 5) (B.take 5)
              (by
                intro hc
                rcases List.take_eq_nil_iff.1 hc with h5 | h5
                · cases h5
                · exact hAne h5)
              (by rw [List.length_take]; omega)
              (by rw [List.length_take]; omega)
              (fun z hz => hbA z (List.mem_of_mem_take hz))
              (fun z hz => hbB z (List.mem_of_mem_take hz))
              hlt5
            obtain ⟨p, a, b, u, v, hab, hP1, hP2⟩ := hsd
            rw [encodeChars_eq_chunks hAne, encodeChars_eq_chunks hBne,
              encode_chunk_eq_chunkSyms (by simp [hAne]) (by simp)
                (fun z hz => hbA z (List.mem_of_mem_take hz)),
              encode_chunk_eq_chunkSyms (by simp [hBne]) (by simp)
                (fun z hz => hbB z (List.mem_of_mem_take hz)),
              hP1, hP2]
            have hshA : (p ++ a :: u) ++ encodeChars (A.drop 5)
                = p ++ a :: (u ++ encodeChars (A.drop 5)) := by simp
            have hshB : (p ++ b :: v) ++ encodeChars (B.drop 5)
                = p ++ b :: (v ++ encodeChars (B.drop 5)) := by simp
            rw [hshA, hshB]
            exact lexLt_of_diff hab p _ _

/-- C4: order preservation — if byte sequence `A` sorts strictly below `B`,
the UTF-8 encoded output of `encode A` sorts strictly below that of
`encode B`; together with the round trip (C1) this is what makes sorting a
batch of encoded strings and decoding yield the inputs in sorted order. -/
theorem claim_C4_order_preservation (A B : List Nat) (ha : ∀ z ∈ A, z < 256)
    (hb : ∀ z ∈ B, z < 256) (h : lexLt A B = true) :
    lexLt (encode A) (encode B) = true := by
  unfold encode
  exact flatMap_utf8_lt (encodeChars_valid A.length A le_rfl ha)
    (encodeChars_valid B.length B le_rfl hb)
    (encodeChars_lt A.length A B le_rfl ha hb h)

/-! ### Concrete witnesses for the hypothesis-bearing claims -/

/-- C1 at the concrete input `[0, 1, 2]`. -/
theorem claim_C1_roundtrip_witness :
    (∀ b ∈ [0, 1, 2], b < 256) ∧ decode (encode [0, 1, 2]) = Except.ok [0, 1, 2] :=
  ⟨by decide, claim_C1_roundtrip [0, 1, 2] (by decide)⟩

/-- C2 at the concrete 4-byte chunk `[10, 20, 30, 7]`. -/
theorem claim_C2_encode_chunk_witness :
    (([10, 20, 30, 7] : List Nat) ≠ [] ∧ ([10, 20, 30, 7] : List Nat).length ≤ 5) ∧
      encode_chunk [10, 20, 30, 7] = encode_chunk_spec [10, 20, 30, 7] :=
  ⟨⟨by decide, by decide⟩, claim_C2_encode_chunk [10, 20, 30, 7] (by decide) (by decide)⟩

/-- C4 at the concrete inputs `A = [0]`, `B = [0, 1]`. -/
theorem claim_C4_order_preservation_witness :
    ((∀ z ∈ [0], z < 256) ∧ (∀ z ∈ [0, 1], z < 256) ∧ lexLt [0] [0, 1] = true) ∧
      lexLt (encode [0]) (encode [0, 1]) = true :=
  ⟨⟨by decide, by decide, by decide⟩,
    claim_C4_order_preservation [0] [0, 1] (by decide) (by decide) (by decide)⟩

/-- C8 at the concrete input `[0, 1, 2, 3, 4, 5]` (two chunks). -/
theorem claim_C8_output_shape_witness :
    (∀ b ∈ [0, 1, 2, 3, 4, 5], b < 256) ∧
      (charsOf (encode [0, 1, 2, 3, 4, 5])
          = (encodeChars [0, 1, 2, 3, 4, 5]).map Except.ok ∧
        (encodeChars [0, 1, 2, 3, 4, 5]).length
          = 4 * ((([0, 1, 2, 3, 4, 5] : List Nat).length + 4) / 5) ∧
        ∀ c ∈ encodeChars [0, 1, 2, 3, 4, 5], is_valid_alphabet_char c = true) :=
  ⟨by decide, claim_C8_output_shape [0, 1, 2, 3, 4, 5] (by decide)⟩

/-- C9 at the concrete inputs `A = [104, 105]`, `B = [33]`. -/
theorem claim_C9_concat_witness :
    ((∀ b ∈ [104, 105], b < 256) ∧ (∀ b ∈ [33], b < 256)) ∧
      decode (encode [104, 105] ++ encode [33]) = Except.ok ([104, 105] ++ [33]) :=
  ⟨⟨by decide, by decide⟩, claim_C9_concat [104, 105] [33] (by decide) (by decide)⟩

end Ecoji
